import Mathlib

/-!
Verification development for the retrieval-augmented change pipeline
(`backend/app/services`): the patch engine (`diff.py`), the project index
(`embeddings.py`), retrieval fusion (`retrieval.py`) and the executor retry
loop (`agent/executor.py`).  Python string contents are modelled as
`List Char`; machine text operations (`splitlines`, `strip`, `lower`) are
embedded for the `'\n'` / ASCII range they are exercised on.
-/

/-! ## Python string helpers -/

/-- Python's whitespace class as used by `str.strip` and the regex class
`\s`, restricted to the ASCII characters that occur in this code base. -/
def isPyWs (c : Char) : Bool :=
  c = ' ' || c = '\t' || c = '\n' || c = '\r' || c = '\x0b' || c = '\x0c'

/-- Python `str.strip()`: drop leading and trailing whitespace. -/
def pyStrip (s : List Char) : List Char :=
  ((s.dropWhile isPyWs).reverse.dropWhile isPyWs).reverse

/-- Python `str.lower()` on the ASCII range (the error signatures scanned by
`_classify_error` are ASCII). -/
def toLowerL (s : List Char) : List Char := s.map Char.toLower

/-- Python `needle in haystack` on strings: some suffix of `hay` starts with
`needle`. -/
def listContains (hay needle : List Char) : Bool :=
  match hay with
  | [] => needle.isEmpty
  | _ :: t => needle.isPrefixOf hay || listContains t needle

theorem isPrefixOf_append_self (v w : List Char) : v.isPrefixOf (v ++ w) = true := by
  induction v with
  | nil => simp [List.isPrefixOf]
  | cons c cs ih => simp [List.isPrefixOf, ih]

theorem listContains_of_append (u v w : List Char) :
    listContains (u ++ v ++ w) v = true := by
  induction u with
  | nil =>
    cases v with
    | nil => cases w <;> simp [listContains, List.isEmpty, List.isPrefixOf]
    | cons c cs => simp [listContains, isPrefixOf_append_self]
  | cons c cs ih =>
    simp only [listContains, List.cons_append, Bool.or_eq_true]
    right
    simpa [List.append_assoc] using ih

theorem listContains_self (v : List Char) : listContains v v = true := by
  have h := listContains_of_append [] v []
  simpa using h

/-- `needle` occurs in `v`, hence in `u ++ v ++ w`. -/
theorem listContains_mono (u v w needle : List Char)
    (h : listContains v needle = true) :
    listContains (u ++ v ++ w) needle = true := by
  induction u with
  | nil =>
    simp only [List.nil_append]
    induction v with
    | nil =>
      cases needle with
      | nil => cases w <;> simp [listContains, List.isEmpty]
      | cons c cs => simp [listContains, List.isEmpty] at h
    | cons c cs ih =>
      simp only [listContains, List.cons_append, Bool.or_eq_true] at h ⊢
      rcases h with h | h
      · left
        -- a prefix of `c :: cs` is a prefix of `c :: (cs ++ w)`
        cases needle with
        | nil => simp [List.isPrefixOf]
        | cons n ns =>
          simp only [List.isPrefixOf, Bool.and_eq_true] at h ⊢
          refine ⟨h.1, ?_⟩
          -- ns.isPrefixOf cs → ns.isPrefixOf (cs ++ w)
          clear ih
          obtain ⟨h1, h2⟩ := h
          clear h1
          induction ns generalizing cs with
          | nil => simp [List.isPrefixOf]
          | cons m ms ihm =>
            cases cs with
            | nil => simp [List.isPrefixOf] at h2
            | cons d ds =>
              simp only [List.isPrefixOf, Bool.and_eq_true, List.cons_append] at h2 ⊢
              exact ⟨h2.1, ihm ds h2.2⟩
      · right; exact ih h
  | cons c cs ih =>
    simp only [listContains, List.cons_append, Bool.or_eq_true]
    right
    simpa [List.append_assoc] using ih


/-! ## Patch engine (`diff.py`)

`generate_unified_diff` splits both contents into lines with kept line
endings — Python `str.splitlines(keepends=True)`, which breaks on `'\n'`,
`'\r'`, the glued pair `"\r\n"`, `'\x0b'`, `'\x0c'`, `'\x1c'`, `'\x1d'`,
`'\x1e'`, `'\x85'`, the escapes `0x2028` and `0x2029` — forces a trailing newline
on the last line of each side, and feeds the two line lists to
`difflib.unified_diff`.  The opcode stream of that library call is
modelled by `lineDiff`: a stream of context / delete / insert opcodes
that partitions both sides (`difflib` computes a particular minimal such
stream; every claim below depends only on the partition property and on
the stream being free of delete/insert opcodes exactly when the sides are
equal, which `lineDiff` shares with it).  Lines 50-54 of `diff.py` then
append `'\n'` to every rendered diff line that lacks one — so a diff line
ending in a break character other than `'\n'` gains an extra newline in
the patch text — which `mapOp ensureNl` applies to the opcode stream.
`git apply` reads both the patch body and the target file as
`'\n'`-separated lines (`splitNl`), so applying the patch replays the
serialised opcodes against the file's `'\n'`-lines. -/

/-- The line-break characters of Python `str.splitlines`. -/
def isLineBreak (c : Char) : Bool :=
  c = '\n' || c = '\r' || c = '\x0b' || c = '\x0c' || c = '\x1c' ||
  c = '\x1d' || c = '\x1e' || c = '\x85' || c = '\u2028' || c = '\u2029'

/-- Python `content.splitlines(keepends=True)`: split after every
line-break character, keeping it on its line, with a `"\r\n"` pair kept
together as a single line ending. -/
def splitLinesKeepEnds : List Char → List (List Char)
  | [] => []
  | [c] => [[c]]
  | c :: d :: cs =>
    if isLineBreak c then
      if c = '\r' ∧ d = '\n' then ['\r', '\n'] :: splitLinesKeepEnds cs
      else [c] :: splitLinesKeepEnds (d :: cs)
    else
      match splitLinesKeepEnds (d :: cs) with
      | [] => [[c]]
      | l :: ls => (c :: l) :: ls

/-- `git`'s view of text: lines split after each `'\n'` only, endings
kept.  `git apply` parses the patch body this way and matches it against
the target file read the same way. -/
def splitNl : List Char → List (List Char)
  | [] => []
  | c :: cs =>
    if c = '\n' then ['\n'] :: splitNl cs
    else
      match splitNl cs with
      | [] => [[c]]
      | l :: ls => (c :: l) :: ls

/-- Lines 36-39 of `diff.py`: if the last line does not end with `'\n'`,
append one (both sides of the diff are normalised this way). -/
def ensureTrailingNewline : List (List Char) → List (List Char)
  | [] => []
  | [l] => if l.getLast? = some '\n' then [l] else [l ++ ['\n']]
  | l :: l' :: ls => l :: ensureTrailingNewline (l' :: ls)

/-- The line list `generate_unified_diff` diffs: split, then force the
trailing newline. -/
def normLines (s : List Char) : List (List Char) :=
  ensureTrailingNewline (splitLinesKeepEnds s)

/-- A whole content normalised the way the diff's to-side last line is:
unchanged when empty or already `'\n'`-terminated, else with `'\n'`
appended. -/
def normalizeNewline (s : List Char) : List Char :=
  if s = [] then [] else if s.getLast? = some '\n' then s else s ++ ['\n']

def joinLines (ls : List (List Char)) : List Char := ls.flatten

/-- Lines 50-54 of `diff.py`: a rendered diff line that does not end with
`'\n'` gets one appended before the patch text is assembled. -/
def ensureNl (l : List Char) : List Char :=
  if l.getLast? = some '\n' then l else l ++ ['\n']

/-- One opcode of the line diff: a context line, a removed line or an
added line. -/
inductive DiffOp
  | equal (l : List Char)
  | delete (l : List Char)
  | insert (l : List Char)
deriving DecidableEq

/-- The opcode stream of `difflib.unified_diff` over two line lists. -/
def lineDiff : List (List Char) → List (List Char) → List DiffOp
  | [], bs => bs.map .insert
  | a :: as, [] => .delete a :: lineDiff as []
  | a :: as, b :: bs =>
    if a = b then .equal a :: lineDiff as bs
    else .delete a :: lineDiff as (b :: bs)

/-- A diff renders to empty text iff it has no delete/insert opcode
(`difflib.unified_diff` emits nothing when the line lists are equal). -/
def diffOpsEmpty (ops : List DiffOp) : Bool :=
  ops.all fun op => match op with | .equal _ => true | _ => false

/-- Apply `f` to the line carried by an opcode. -/
def mapOp (f : List Char → List Char) : DiffOp → DiffOp
  | .equal l => .equal (f l)
  | .delete l => .delete (f l)
  | .insert l => .insert (f l)

/-- `generate_unified_diff(original, modified, filename)`, modelled as the
opcode stream between the two newline-normalised line lists with every
carried line made `'\n'`-terminated, the way lines 50-54 serialise the
diff into patch text (the `filename` only decorates the `---`/`+++`
headers of that text). -/
def generate_unified_diff (original_content modified_content : String) : List DiffOp :=
  (lineDiff (normLines original_content.data)
    (normLines modified_content.data)).map (mapOp ensureNl)

/-- `git apply` of the rendered diff on a file's line list: each context
or delete opcode must match the next line of the file (git verifies
context and removed lines and rejects the patch otherwise), insert
opcodes emit lines. -/
def applyOps : List DiffOp → List (List Char) → Option (List (List Char))
  | [], [] => some []
  | [], _ :: _ => none
  | .equal l :: ops, x :: xs =>
    if x = l then (applyOps ops xs).map (l :: ·) else none
  | .equal _ :: _, [] => none
  | .delete l :: ops, x :: xs => if x = l then applyOps ops xs else none
  | .delete _ :: _, [] => none
  | .insert l :: ops, xs => (applyOps ops xs).map (l :: ·)

/-- Applying the generated diff to a file: an empty diff is a textual
no-op (`apply_with_git` returns before touching any file), a non-empty
diff replays its opcodes against the file's `'\n'`-lines — git's view of
the file.  (`git apply` checks hunk context; on a file equal to the
diff's serialised from-side, which is the only case the theorems below
invoke, hunk application and whole-sequence replay agree.) -/
def applyDiffToFile (ops : List DiffOp) (file : List Char) : Option (List Char) :=
  if diffOpsEmpty ops then some file
  else (applyOps ops (splitNl file)).map joinLines

theorem applyOps_lineDiff (a b : List (List Char)) :
    applyOps (lineDiff a b) a = some b := by
  induction a generalizing b with
  | nil =>
    induction b with
    | nil => rfl
    | cons y ys ih => simp [lineDiff, applyOps, lineDiff] at ih ⊢; simp [ih]
  | cons x xs ih =>
    cases b with
    | nil => simp [lineDiff, applyOps, ih]
    | cons y ys =>
      by_cases hxy : x = y
      · subst hxy; simp [lineDiff, applyOps, ih]
      · simp [lineDiff, hxy, applyOps, ih]

theorem applyOps_lineDiff_map (f : List Char → List Char) :
    ∀ (a b : List (List Char)), (∀ l ∈ a, f l = l) →
      applyOps ((lineDiff a b).map (mapOp f)) a = some (b.map f) := by
  intro a
  induction a with
  | nil =>
    intro b hf
    induction b with
    | nil => rfl
    | cons y ys ih =>
      simp [lineDiff, mapOp, applyOps] at ih ⊢
      simp [ih]
  | cons x xs ih =>
    intro b hf
    have hfx : f x = x := hf x (List.mem_cons_self x xs)
    have hfxs : ∀ l ∈ xs, f l = l := fun l hl => hf l (List.mem_cons_of_mem x hl)
    cases b with
    | nil =>
      simp [lineDiff, mapOp, hfx, applyOps, ih [] hfxs]
    | cons y ys =>
      by_cases hxy : x = y
      · subst hxy
        simp [lineDiff, mapOp, hfx, applyOps, ih ys hfxs]
      · simp [lineDiff, hxy, mapOp, hfx, applyOps, ih (y :: ys) hfxs]

theorem splitNl_ne_nil (c : Char) (cs : List Char) :
    splitNl (c :: cs) ≠ [] := by
  unfold splitNl
  split
  · simp
  · split <;> simp

theorem joinLines_splitNl (s : List Char) :
    joinLines (splitNl s) = s := by
  induction s with
  | nil => rfl
  | cons c cs ih =>
    by_cases hc : c = '\n'
    · subst hc
      simp [splitNl, joinLines] at ih ⊢
      exact ih
    · simp only [splitNl, hc, if_neg, if_false]
      cases hs : splitNl cs with
      | nil =>
        cases cs with
        | nil => simp [joinLines]
        | cons d ds => exact absurd hs (splitNl_ne_nil d ds)
      | cons l ls =>
        rw [hs] at ih
        simp [joinLines] at ih ⊢
        exact ih

theorem splitNl_cons_nl (cs : List Char) :
    splitNl ('\n' :: cs) = ['\n'] :: splitNl cs := by
  rw [splitNl]
  simp

theorem splitNl_cons_other (c : Char) (cs : List Char) (hc : ¬ c = '\n') :
    splitNl (c :: cs) =
      match splitNl cs with
      | [] => [[c]]
      | l :: ls => (c :: l) :: ls := by
  rw [splitNl, if_neg hc]

theorem getLast_splitNl (s : List Char) (hs : s ≠ []) :
    ∃ l ls, splitNl s = ls ++ [l] ∧ l ≠ [] ∧ l.getLast? = s.getLast? := by
  induction s with
  | nil => exact absurd rfl hs
  | cons c cs ih =>
    cases cs with
    | nil =>
      by_cases hc : c = '\n'
      · subst hc
        exact ⟨['\n'], [], by rw [splitNl_cons_nl]; rfl, by simp, by simp⟩
      · refine ⟨[c], [], ?_, by simp, by simp⟩
        rw [splitNl_cons_other c [] hc]
        rfl
    | cons d ds =>
      obtain ⟨l, ls, hsplit, hne, hlast⟩ := ih (by simp)
      by_cases hc : c = '\n'
      · subst hc
        refine ⟨l, ['\n'] :: ls, ?_, hne, ?_⟩
        · rw [splitNl_cons_nl, hsplit]
          rfl
        · rw [hlast, List.getLast?_cons_cons]
      · cases ls with
        | nil =>
          refine ⟨c :: l, [], ?_, by simp, ?_⟩
          · rw [splitNl_cons_other c (d :: ds) hc, hsplit]
            rfl
          · rw [List.getLast?_cons_cons, ← hlast]
            cases l with
            | nil => exact absurd rfl hne
            | cons x xs => rw [List.getLast?_cons_cons]
        | cons m ms =>
          refine ⟨l, (c :: m) :: ms, ?_, hne, ?_⟩
          · rw [splitNl_cons_other c (d :: ds) hc, hsplit]
            rfl
          · rw [hlast, List.getLast?_cons_cons]

theorem ensureTrailingNewline_append_last (ls : List (List Char)) (l : List Char) :
    ensureTrailingNewline (ls ++ [l]) =
      ls ++ [if l.getLast? = some '\n' then l else l ++ ['\n']] := by
  induction ls with
  | nil =>
    by_cases h : l.getLast? = some '\n' <;> simp [ensureTrailingNewline, h]
  | cons m ms ih =>
    cases ms with
    | nil =>
      by_cases h : l.getLast? = some '\n' <;>
        simp [ensureTrailingNewline, h]
    | cons m' ms' =>
      simp only [List.cons_append, ensureTrailingNewline, List.append_eq] at ih ⊢
      rw [ih]

theorem ensure_splitNl_of_endsNl (s : List Char) (h : s.getLast? = some '\n') :
    ensureTrailingNewline (splitNl s) = splitNl s := by
  have hs : s ≠ [] := by intro h0; rw [h0] at h; simp at h
  obtain ⟨l, ls, hsplit, _, hlast⟩ := getLast_splitNl s hs
  rw [hsplit, ensureTrailingNewline_append_last, hlast, h]
  simp

theorem joinLines_append (xs : List (List Char)) (y : List Char) :
    joinLines (xs ++ [y]) = joinLines xs ++ y := by
  simp [joinLines]

theorem joinLines_ensure_splitNl (s : List Char) :
    joinLines (ensureTrailingNewline (splitNl s)) = normalizeNewline s := by
  by_cases hs : s = []
  · subst hs; rfl
  · obtain ⟨l, ls, hsplit, _, hlast⟩ := getLast_splitNl s hs
    rw [hsplit, ensureTrailingNewline_append_last, hlast]
    by_cases h : s.getLast? = some '\n'
    · rw [if_pos h, normalizeNewline, if_neg hs, if_pos h, ← hsplit]
      exact joinLines_splitNl s
    · rw [if_neg h, joinLines_append, normalizeNewline, if_neg hs, if_neg h]
      have hj : joinLines (ls ++ [l]) = s := by
        rw [← hsplit]; exact joinLines_splitNl s
      rw [joinLines_append] at hj
      rw [← List.append_assoc, hj]

theorem splitNl_dropLast_end (s : List Char) :
    ∀ l ∈ (splitNl s).dropLast, l.getLast? = some '\n' := by
  induction s with
  | nil =>
    intro l hl
    simp [splitNl] at hl
  | cons c cs ih =>
    intro l hl
    by_cases hc : c = '\n'
    · subst hc
      rw [splitNl_cons_nl] at hl
      cases hcs : splitNl cs with
      | nil =>
        rw [hcs] at hl
        simp at hl
      | cons m ms =>
        rw [hcs] at hl
        rcases List.mem_cons.mp hl with h | h
        · subst h; rfl
        · exact ih l (by rw [hcs]; exact h)
    · rw [splitNl_cons_other c cs hc] at hl
      cases hcs : splitNl cs with
      | nil =>
        rw [hcs] at hl
        simp at hl
      | cons m ms =>
        rw [hcs] at hl
        cases ms with
        | nil => simp at hl
        | cons m2 ms2 =>
          rcases List.mem_cons.mp hl with h | h
          · subst h
            have hm : m.getLast? = some '\n' := by
              refine ih m ?_
              rw [hcs]
              exact List.mem_cons_self m _
            cases m with
            | nil => simp at hm
            | cons a as => rw [List.getLast?_cons_cons]; exact hm
          · refine ih l ?_
            rw [hcs]
            exact List.mem_cons_of_mem m h

theorem ensure_splitNl_lines_end (s : List Char) :
    ∀ l ∈ ensureTrailingNewline (splitNl s), l.getLast? = some '\n' := by
  by_cases hs : s = []
  · subst hs
    intro l hl
    simp [splitNl, ensureTrailingNewline] at hl
  · obtain ⟨last, ls, hsplit, hne, hlast⟩ := getLast_splitNl s hs
    have hdl : ls = (splitNl s).dropLast := by
      rw [hsplit, List.dropLast_concat]
    rw [hsplit, ensureTrailingNewline_append_last]
    intro l hl
    rcases List.mem_append.mp hl with h | h
    · exact splitNl_dropLast_end s l (hdl ▸ h)
    · rw [List.mem_singleton] at h
      subst h
      by_cases he : last.getLast? = some '\n'
      · rw [if_pos he]; exact he
      · rw [if_neg he]
        exact List.getLast?_concat last

theorem map_ensureNl_id (L : List (List Char))
    (h : ∀ l ∈ L, l.getLast? = some '\n') : L.map ensureNl = L := by
  induction L with
  | nil => rfl
  | cons x xs ih =>
    rw [List.map_cons, ih (fun l hl => h l (List.mem_cons_of_mem x hl))]
    rw [ensureNl, if_pos (h x (List.mem_cons_self x xs))]

theorem splitLinesKeepEnds_eq_splitNl :
    ∀ s : List Char, (∀ c ∈ s, isLineBreak c = true → c = '\n') →
      splitLinesKeepEnds s = splitNl s := by
  intro s
  induction s with
  | nil => intro _; rfl
  | cons c cs ih =>
    intro hb
    have hbc : ∀ x ∈ cs, isLineBreak x = true → x = '\n' :=
      fun x hx => hb x (List.mem_cons_of_mem c hx)
    cases cs with
    | nil =>
      by_cases hc : c = '\n'
      · subst hc
        rfl
      · rw [splitNl_cons_other c [] hc]
        rfl
    | cons d ds =>
      by_cases hc : isLineBreak c = true
      · have hcn : c = '\n' := hb c (List.mem_cons_self c _) hc
        subst hcn
        rw [splitNl_cons_nl, splitLinesKeepEnds, if_pos hc]
        rw [if_neg (fun hrn => absurd hrn.1 (by decide))]
        rw [ih hbc]
      · have hcn : ¬ c = '\n' := by
          intro hceq
          rw [hceq] at hc
          exact hc (by decide)
        rw [splitNl_cons_other c (d :: ds) hcn, splitLinesKeepEnds, if_neg hc]
        rw [ih hbc]

theorem diffOpsEmpty_map (f : List Char → List Char) (ops : List DiffOp) :
    diffOpsEmpty (ops.map (mapOp f)) = diffOpsEmpty ops := by
  induction ops with
  | nil => rfl
  | cons op ops ih =>
    cases op <;> simp [diffOpsEmpty, mapOp, List.all_cons] at ih ⊢ <;> exact ih

theorem diffOpsEmpty_lineDiff (a b : List (List Char)) :
    diffOpsEmpty (lineDiff a b) = true ↔ a = b := by
  constructor
  · intro h
    induction a generalizing b with
    | nil =>
      cases b with
      | nil => rfl
      | cons y ys => simp [lineDiff, diffOpsEmpty] at h
    | cons x xs ih =>
      cases b with
      | nil => simp [lineDiff, diffOpsEmpty] at h
      | cons y ys =>
        by_cases hxy : x = y
        · subst hxy
          simp [lineDiff, diffOpsEmpty] at h
          exact congrArg (List.cons x) (ih ys (by simpa [diffOpsEmpty] using h))
        · simp [lineDiff, hxy, diffOpsEmpty] at h
  · intro h
    subst h
    induction a with
    | nil => rfl
    | cons x xs ih =>
      simpa [lineDiff, diffOpsEmpty] using ih

/-- C1 (corrected).  `generate_unified_diff` normalises both sides to end
with a trailing newline before diffing, and its patch text gives every
diff line a trailing `'\n'` (lines 50-54) — including lines that
`splitlines` ended at a break character other than `'\n'`.  So for every
`original` that is empty or `'\n'`-terminated and whose only line-break
characters are `'\n'` (so that its `git` line view agrees with its
`splitlines` view and the patch applies cleanly), the round trip yields
`modified` with every `splitlines` line forced to end in `'\n'`; this
equals the plain trailing-newline normalisation of `modified` whenever
`modified`'s only break characters are `'\n'`, and `modified` itself only
when moreover `modified` is empty or already ends with a newline. -/
theorem C1_diff_roundtrip_amended (original modified : String)
    (h : original.data = [] ∨ original.data.getLast? = some '\n')
    (hb : ∀ c ∈ original.data, isLineBreak c = true → c = '\n') :
    applyDiffToFile (generate_unified_diff original modified) original.data =
      some (joinLines ((normLines modified.data).map ensureNl)) ∧
    ((∀ c ∈ modified.data, isLineBreak c = true → c = '\n') →
      joinLines ((normLines modified.data).map ensureNl) =
        normalizeNewline modified.data) := by
  have hsO : splitLinesKeepEnds original.data = splitNl original.data :=
    splitLinesKeepEnds_eq_splitNl original.data hb
  have hnO : normLines original.data = splitNl original.data := by
    rcases h with h | h
    · rw [normLines, h]
      rfl
    · rw [normLines, hsO]
      exact ensure_splitNl_of_endsNl _ h
  have hlines : ∀ l ∈ normLines original.data, l.getLast? = some '\n' := by
    rw [normLines, hsO]
    exact ensure_splitNl_lines_end original.data
  have hfO : ∀ l ∈ normLines original.data, ensureNl l = l := fun l hl => by
    rw [ensureNl, if_pos (hlines l hl)]
  constructor
  · rw [applyDiffToFile]
    by_cases he : diffOpsEmpty (generate_unified_diff original modified) = true
    · rw [if_pos he]
      rw [generate_unified_diff, diffOpsEmpty_map] at he
      have heq := (diffOpsEmpty_lineDiff _ _).mp he
      rw [← heq, map_ensureNl_id _ hlines, hnO, joinLines_splitNl]
    · rw [if_neg he, generate_unified_diff, ← hnO,
        applyOps_lineDiff_map ensureNl _ _ hfO]
      rfl
  · intro hbm
    rw [normLines, splitLinesKeepEnds_eq_splitNl modified.data hbm]
    rw [map_ensureNl_id _ (ensure_splitNl_lines_end modified.data)]
    exact joinLines_ensure_splitNl modified.data

/-- C1 counterexample: with `original = "a\n"` and `modified = "b"` the
generated diff applies to a file holding `"a\n"` and produces `"b\n"`, not
`modified = "b"` — the round trip is not exact on contents that lack a
trailing newline. -/
theorem C1_diff_roundtrip_counterexample :
    applyDiffToFile (generate_unified_diff "a\n" "b") ("a\n" : String).data =
        some ['b', '\n'] ∧
      ("b" : String).data ≠ ['b', '\n'] := by
  constructor
  · decide
  · decide

/-- C1 witness: the amended round trip at a concrete input, where the
result is the trailing-newline normalisation of `modified`. -/
theorem C1_diff_roundtrip_witness :
    applyDiffToFile (generate_unified_diff "a\n" "b\nc") ("a\n" : String).data =
      some (joinLines ((normLines ("b\nc" : String).data).map ensureNl)) ∧
    joinLines ((normLines ("b\nc" : String).data).map ensureNl) =
      normalizeNewline ("b\nc" : String).data := by
  have h := C1_diff_roundtrip_amended "a\n" "b\nc" (Or.inr (by decide)) (by decide)
  exact ⟨h.1, h.2 (by decide)⟩

/-! ## `apply_with_git` side effects (`diff.py` lines 106-156) -/

/-- Result of applying diffs (the `ApplyResult` dataclass). -/
structure ApplyResult where
  success : Bool
  message : String
deriving DecidableEq

/-- Filesystem side effects of one `apply_with_git` call: whether the
timestamped backup directory was created (`_create_project_backup`), whether
the temporary `.patch` file was written, and whether `git apply` modified
any project file. -/
structure ApplyEffects where
  backup_dir_created : Bool
  patch_file_written : Bool
  project_files_modified : Bool
deriving DecidableEq

/-- Behaviour of the `git apply` subprocess (an external tool). -/
inductive GitApplyOutcome
  | exit (returncode : Nat) (stderr : String)
  | gitMissing            -- FileNotFoundError: git not on PATH
  | timeout               -- subprocess.TimeoutExpired (30s limit)
  | raised (msg : String) -- any other exception, caught broadly
deriving DecidableEq

/-- `apply_with_git` past the blank-diff check: creates the backup directory,
writes the temp patch file, runs `git apply` and maps its outcome
(`diff.py` lines 114-156).  `backup_dir` is the timestamped directory name
reported in the success message. -/
def apply_with_git_core (backup_dir : String) (git : GitApplyOutcome) :
    ApplyResult × ApplyEffects :=
  match git with
  | .exit 0 _ =>
    (⟨true, "Changes applied successfully. Backup: " ++ backup_dir⟩,
     ⟨true, true, true⟩)
  | .exit _ stderr =>
    (⟨false, "git apply failed: " ++ stderr⟩, ⟨true, true, false⟩)
  | .gitMissing => (⟨false, "Git not available"⟩, ⟨true, true, false⟩)
  | .timeout => (⟨false, "git apply timed out"⟩, ⟨true, true, false⟩)
  | .raised msg => (⟨false, msg⟩, ⟨true, true, false⟩)

/-- `apply_with_git(project_path, combined_diff)`: a diff whose text strips
to nothing returns immediately (`diff.py` lines 111-112), before the backup
directory, the patch file or any project file is touched. -/
def apply_with_git (combined_diff : String) (backup_dir : String)
    (git : GitApplyOutcome) : ApplyResult × ApplyEffects :=
  if pyStrip combined_diff.data = [] then
    (⟨true, "No changes to apply"⟩, ⟨false, false, false⟩)
  else apply_with_git_core backup_dir git

/-- C10 (confirmed).  An empty or whitespace-only combined diff makes
`apply_with_git` return success with message "No changes to apply" and
perform no filesystem side effect: no backup directory, no patch file, no
touched project file — whatever the git subprocess would have done. -/
theorem C10_blank_diff_no_side_effects (combined_diff backup_dir : String)
    (git : GitApplyOutcome) (h : pyStrip combined_diff.data = []) :
    apply_with_git combined_diff backup_dir git =
      (⟨true, "No changes to apply"⟩, ⟨false, false, false⟩) := by
  rw [apply_with_git, if_pos h]

/-- C10 witness: a whitespace-only diff at a concrete input. -/
theorem C10_blank_diff_no_side_effects_witness :
    pyStrip (" \n\t" : String).data = [] ∧
      apply_with_git " \n\t" "bdir" (.exit 1 "boom") =
        (⟨true, "No changes to apply"⟩, ⟨false, false, false⟩) :=
  ⟨by decide, C10_blank_diff_no_side_effects " \n\t" "bdir" (.exit 1 "boom") (by decide)⟩

/-! ## Retrieval fusion (`retrieval.py`, `_merge_results`) -/

/-- One result produced by a retrieval signal: the dicts
`{file_path, content, score, metadata}` built by `search_similar`,
`_keyword_search` and `_match_hints`.  Scores are exact rationals (the
spec's weighted-sum arithmetic is real-number arithmetic); the metadata
dict is an opaque payload carried through unchanged. -/
structure RResult where
  file_path : String
  content : String
  score : ℚ
  metadata : String
deriving DecidableEq

/-- One entry of the merged dict (`merged[path]` in `_merge_results`). -/
structure MergedEntry where
  file_path : String
  content : String
  score : ℚ
  signals : List String
  metadata : String
deriving DecidableEq

/-- `add_result` inside `_merge_results`: on first sight of a path create
its entry (score 0, empty signal list, content and metadata of this first
result), then add `score × weight` and append the signal name.  The
insertion-ordered Python dict `merged` is an association list. -/
def add_result (merged : List MergedEntry) (r : RResult) (weight : ℚ)
    (signal : String) : List MergedEntry :=
  if merged.any (fun e => e.file_path = r.file_path) then
    merged.map fun e =>
      if e.file_path = r.file_path then
        { e with score := e.score + r.score * weight,
                 signals := e.signals ++ [signal] }
      else e
  else
    merged ++ [{ file_path := r.file_path, content := r.content,
                 score := 0 + r.score * weight, signals := [signal],
                 metadata := r.metadata }]

/-- 0.5 as an exact rational. -/
def SEMANTIC_WEIGHT : ℚ := 1 / 2
/-- 0.3 as an exact rational. -/
def KEYWORD_WEIGHT : ℚ := 3 / 10
/-- 0.8 as an exact rational (hints from intent parsing are very valuable). -/
def HINT_WEIGHT : ℚ := 4 / 5

/-- The merged dict after the three signal passes, in insertion order:
semantic results processed first, then keyword, then hints. -/
def mergedResults (semantic keyword hints : List RResult) : List MergedEntry :=
  let m0 := semantic.foldl (fun m r => add_result m r SEMANTIC_WEIGHT "semantic") []
  let m1 := keyword.foldl (fun m r => add_result m r KEYWORD_WEIGHT "keyword") m0
  hints.foldl (fun m r => add_result m r HINT_WEIGHT "hint") m1

/-- Stable insertion step of the descending sort by score: a new element
moves past entries with a strictly greater score and stops in front of the
first entry whose score is not greater. -/
def insertDesc (x : MergedEntry) : List MergedEntry → List MergedEntry
  | [] => [x]
  | y :: ys => if y.score > x.score then y :: insertDesc x ys else x :: y :: ys

/-- Python `sorted(merged.values(), key=score, reverse=True)`: a stable
descending sort (Python's sort is stable, and every stable descending sort
computes the same list, so insertion sort is extensionally the same). -/
def sortByScoreDesc : List MergedEntry → List MergedEntry
  | [] => []
  | x :: xs => insertDesc x (sortByScoreDesc xs)

/-- `_merge_results(semantic, keyword, hints, top_k)`: merge, sort
descending by combined score, truncate to `top_k`. -/
def _merge_results (semantic keyword hints : List RResult) (top_k : Nat) :
    List MergedEntry :=
  (sortByScoreDesc (mergedResults semantic keyword hints)).take top_k

def pathsOf (m : List MergedEntry) : List String := m.map (fun e => e.file_path)

theorem pathsOf_add_result (m : List MergedEntry) (r : RResult) (w : ℚ) (s : String) :
    pathsOf (add_result m r w s) =
      if m.any (fun e => e.file_path = r.file_path) then pathsOf m
      else pathsOf m ++ [r.file_path] := by
  unfold add_result pathsOf
  split
  · rw [List.map_map]
    apply List.map_congr_left
    intro e _
    by_cases he : e.file_path = r.file_path <;> simp [he]
  · simp

theorem nodup_pathsOf_add_result (m : List MergedEntry) (r : RResult) (w : ℚ)
    (s : String) (h : (pathsOf m).Nodup) : (pathsOf (add_result m r w s)).Nodup := by
  rw [pathsOf_add_result]
  split
  · exact h
  · rename_i hany
    have hnm : r.file_path ∉ pathsOf m := by
      simp only [List.any_eq_true, decide_eq_true_eq] at hany
      simp only [pathsOf, List.mem_map]
      rintro ⟨e, hem, hpe⟩
      exact hany ⟨e, hem, hpe⟩
    simp [List.nodup_append, h, hnm]

theorem nodup_pathsOf_fold (rs : List RResult) (w : ℚ) (s : String) :
    ∀ (m : List MergedEntry), (pathsOf m).Nodup →
      (pathsOf (rs.foldl (fun m r => add_result m r w s) m)).Nodup := by
  induction rs with
  | nil => intro m h; exact h
  | cons r rs ih =>
    intro m h
    exact ih _ (nodup_pathsOf_add_result m r w s h)

theorem nodup_pathsOf_mergedResults (sem kw hs : List RResult) :
    (pathsOf (mergedResults sem kw hs)).Nodup := by
  unfold mergedResults
  exact nodup_pathsOf_fold _ _ _ _
    (nodup_pathsOf_fold _ _ _ _ (nodup_pathsOf_fold _ _ _ _ (by simp [pathsOf])))

theorem signals_add_result (m : List MergedEntry) (r : RResult) (w : ℚ) (s : String)
    (h : ∀ e ∈ m, e.signals ≠ []) : ∀ e ∈ add_result m r w s, e.signals ≠ [] := by
  unfold add_result
  split
  · intro e he
    rw [List.mem_map] at he
    obtain ⟨e0, he0, rfl⟩ := he
    by_cases hp : e0.file_path = r.file_path
    · simp [hp]
    · simp [hp]
      exact h e0 he0
  · intro e he
    rw [List.mem_append] at he
    rcases he with he | he
    · exact h e he
    · simp at he
      subst he
      simp

theorem signals_fold (rs : List RResult) (w : ℚ) (s : String) :
    ∀ (m : List MergedEntry), (∀ e ∈ m, e.signals ≠ []) →
      ∀ e ∈ rs.foldl (fun m r => add_result m r w s) m, e.signals ≠ [] := by
  induction rs with
  | nil => intro m h; exact h
  | cons r rs ih =>
    intro m h
    exact ih _ (signals_add_result m r w s h)

theorem signals_mergedResults (sem kw hs : List RResult) :
    ∀ e ∈ mergedResults sem kw hs, e.signals ≠ [] := by
  unfold mergedResults
  exact signals_fold _ _ _ _ (signals_fold _ _ _ _ (signals_fold _ _ _ _ (by simp)))

/-- Sum of the scores a list of signal results assigns to one path. -/
def sumScores : List RResult → String → ℚ
  | [], _ => 0
  | r :: rs, p => (if r.file_path = p then r.score else 0) + sumScores rs p

/-- The score the merged dict assigns to a path (0 when the path is absent;
when the path list is duplicate-free this is the score of its entry). -/
def entryScore : List MergedEntry → String → ℚ
  | [], _ => 0
  | e :: m, p => (if e.file_path = p then e.score else 0) + entryScore m p

theorem entryScore_append (m m' : List MergedEntry) (p : String) :
    entryScore (m ++ m') p = entryScore m p + entryScore m' p := by
  induction m with
  | nil => simp [entryScore]
  | cons e m ih =>
    simp only [List.cons_append, entryScore, List.append_eq, ih]
    ring

theorem entryScore_eq_zero_of_not_mem (m : List MergedEntry) (p : String)
    (h : p ∉ pathsOf m) : entryScore m p = 0 := by
  induction m with
  | nil => rfl
  | cons e m ih =>
    simp only [pathsOf, List.map_cons, List.mem_cons, not_or] at h
    have hep : ¬ e.file_path = p := fun hc => h.1 hc.symm
    simp only [entryScore, if_neg hep, ih (by simpa [pathsOf] using h.2)]
    ring

theorem entryScore_eq_of_mem (m : List MergedEntry) (h : (pathsOf m).Nodup)
    (e : MergedEntry) (he : e ∈ m) : entryScore m e.file_path = e.score := by
  induction m with
  | nil => cases he
  | cons f m ih =>
    have hnd : (pathsOf m).Nodup := (List.nodup_cons.mp (by simpa [pathsOf] using h)).2
    have hnmem : f.file_path ∉ pathsOf m :=
      (List.nodup_cons.mp (by simpa [pathsOf] using h)).1
    rcases List.mem_cons.mp he with rfl | he'
    · simp [entryScore, entryScore_eq_zero_of_not_mem m e.file_path hnmem]
    · have hfe : ¬ f.file_path = e.file_path := by
        intro hc
        exact hnmem (hc ▸ List.mem_map_of_mem _ he')
      simp only [entryScore, if_neg hfe, ih hnd he']
      ring

theorem map_upd_no_match (m : List MergedEntry) (r : RResult) (w : ℚ) (s : String)
    (h : ¬ (m.any fun e => e.file_path = r.file_path) = true) :
    (m.map fun e =>
      if e.file_path = r.file_path then
        { e with score := e.score + r.score * w, signals := e.signals ++ [s] }
      else e) = m := by
  induction m with
  | nil => rfl
  | cons e m ih =>
    simp only [List.any_cons, Bool.or_eq_true, decide_eq_true_eq, not_or] at h
    rw [List.map_cons, if_neg h.1, ih (by simpa using h.2)]

theorem entryScore_map_upd (m : List MergedEntry) (r : RResult) (w : ℚ) (s : String)
    (h : (pathsOf m).Nodup) (p : String) :
    entryScore (m.map fun e =>
        if e.file_path = r.file_path then
          { e with score := e.score + r.score * w, signals := e.signals ++ [s] }
        else e) p =
      entryScore m p +
        (if r.file_path = p ∧ (m.any fun e => e.file_path = r.file_path) = true
         then r.score * w else 0) := by
  induction m with
  | nil => simp [entryScore]
  | cons e m ih =>
    have hnd : (pathsOf m).Nodup := (List.nodup_cons.mp (by simpa [pathsOf] using h)).2
    have hnmem : e.file_path ∉ pathsOf m :=
      (List.nodup_cons.mp (by simpa [pathsOf] using h)).1
    rw [List.map_cons]
    by_cases hp : e.file_path = r.file_path
    · have hno : ¬ (m.any fun x => x.file_path = r.file_path) = true := by
        simp only [List.any_eq_true, decide_eq_true_eq, not_exists, not_and]
        intro f hf hfp
        apply hnmem
        rw [hp, ← hfp]
        exact List.mem_map_of_mem _ hf
      rw [if_pos hp, map_upd_no_match m r w s hno]
      have hany : ((e :: m).any fun x => x.file_path = r.file_path) = true := by
        simp [List.any_cons, hp]
      simp only [entryScore, hany, and_true]
      by_cases hpp : e.file_path = p
      · have hrp : r.file_path = p := hp ▸ hpp
        simp [hpp, hrp]
        ring
      · have hrp : ¬ r.file_path = p := fun hc => hpp (hp.trans hc)
        simp only [hpp, if_neg, hrp, if_false]
        simp [hpp, hrp]
    · rw [if_neg hp]
      have hany : ((e :: m).any fun x => x.file_path = r.file_path) =
          (m.any fun x => x.file_path = r.file_path) := by
        simp [List.any_cons, hp]
      simp only [entryScore, hany, ih hnd]
      ring

theorem entryScore_add_result (m : List MergedEntry) (r : RResult) (w : ℚ) (s : String)
    (h : (pathsOf m).Nodup) (p : String) :
    entryScore (add_result m r w s) p =
      entryScore m p + (if r.file_path = p then r.score * w else 0) := by
  unfold add_result
  split
  · rename_i hany
    rw [entryScore_map_upd m r w s h p]
    simp [hany]
  · rw [entryScore_append]
    simp only [entryScore]
    by_cases hp : r.file_path = p <;> simp [hp]

theorem entryScore_fold (rs : List RResult) (w : ℚ) (s : String) :
    ∀ (m : List MergedEntry), (pathsOf m).Nodup → ∀ p,
      entryScore (rs.foldl (fun m r => add_result m r w s) m) p =
        entryScore m p + sumScores rs p * w := by
  induction rs with
  | nil => intro m _ p; simp [sumScores]
  | cons r rs ih =>
    intro m h p
    rw [List.foldl_cons, ih _ (nodup_pathsOf_add_result m r w s h) p,
      entryScore_add_result m r w s h p]
    simp only [sumScores]
    by_cases hr : r.file_path = p
    · simp only [if_pos hr]
      ring
    · simp only [if_neg hr]
      ring

theorem insertDesc_perm (x : MergedEntry) (l : List MergedEntry) :
    List.Perm (insertDesc x l) (x :: l) := by
  induction l with
  | nil => exact List.Perm.refl _
  | cons y ys ih =>
    unfold insertDesc
    split
    · exact (List.Perm.cons y ih).trans (List.Perm.swap x y ys)
    · exact List.Perm.refl _

theorem sortByScoreDesc_perm (l : List MergedEntry) :
    List.Perm (sortByScoreDesc l) l := by
  induction l with
  | nil => exact List.Perm.refl _
  | cons x xs ih =>
    exact (insertDesc_perm x (sortByScoreDesc xs)).trans (List.Perm.cons x ih)

theorem insertDesc_sorted (x : MergedEntry) (l : List MergedEntry)
    (h : List.Pairwise (fun a b => b.score ≤ a.score) l) :
    List.Pairwise (fun a b => b.score ≤ a.score) (insertDesc x l) := by
  induction l with
  | nil => simp [insertDesc]
  | cons y ys ih =>
    rw [List.pairwise_cons] at h
    unfold insertDesc
    split
    · rename_i hgt
      rw [List.pairwise_cons]
      refine ⟨?_, ih h.2⟩
      intro a ha
      have ha2 := (insertDesc_perm x ys).mem_iff.mp ha
      rcases List.mem_cons.mp ha2 with rfl | ha'
      · exact le_of_lt hgt
      · exact h.1 a ha'
    · rename_i hle
      rw [List.pairwise_cons]
      refine ⟨?_, List.pairwise_cons.mpr h⟩
      intro a ha
      rcases List.mem_cons.mp ha with rfl | ha'
      · exact le_of_not_lt hle
      · exact le_trans (h.1 a ha') (le_of_not_lt hle)

theorem sortByScoreDesc_sorted (l : List MergedEntry) :
    List.Pairwise (fun a b => b.score ≤ a.score) (sortByScoreDesc l) := by
  induction l with
  | nil => simp [sortByScoreDesc]
  | cons x xs ih => exact insertDesc_sorted x _ ih

theorem filter_insertDesc (x : MergedEntry) (l : List MergedEntry) (q : ℚ) :
    (insertDesc x l).filter (fun e => e.score = q) =
      if x.score = q then x :: l.filter (fun e => e.score = q)
      else l.filter (fun e => e.score = q) := by
  induction l with
  | nil =>
    simp only [insertDesc, List.filter_cons, List.filter_nil]
    by_cases hx : x.score = q <;> simp [hx]
  | cons y ys ih =>
    unfold insertDesc
    split
    · rename_i hgt
      rw [List.filter_cons, ih]
      by_cases hx : x.score = q
      · have hy : ¬ y.score = q := by
          intro hc
          rw [hc, hx] at hgt
          exact lt_irrefl q hgt
        simp [hx, hy, List.filter_cons]
      · by_cases hy : y.score = q <;> simp [hx, hy, List.filter_cons]
    · rw [List.filter_cons]
      by_cases hx : x.score = q <;> simp [hx, List.filter_cons]

theorem filter_sortByScoreDesc (l : List MergedEntry) (q : ℚ) :
    (sortByScoreDesc l).filter (fun e => e.score = q) =
      l.filter (fun e => e.score = q) := by
  induction l with
  | nil => rfl
  | cons x xs ih =>
    show (insertDesc x (sortByScoreDesc xs)).filter _ = _
    rw [filter_insertDesc]
    by_cases hx : x.score = q <;> simp [hx, ih, List.filter_cons]

/-- C8 (confirmed).  The fusion output has at most one entry per file path,
every entry carries at least one recorded signal (a file with zero signals
never appears, since entries are only ever created by a contributing
signal), the sequence is sorted in non-increasing order of total score with
ties kept in first-appearance order of the merged dict (semantic results
are processed first, then keyword, then hints, and the sort is stable: the
sub-list of entries at any given score is unchanged by it), and its length
is at most `top_k`. -/
theorem C8_fusion_output_invariants (semantic keyword hints : List RResult)
    (top_k : Nat) :
    ((_merge_results semantic keyword hints top_k).map (fun e => e.file_path)).Nodup ∧
    (∀ e ∈ _merge_results semantic keyword hints top_k, e.signals ≠ []) ∧
    List.Pairwise (fun a b => b.score ≤ a.score)
      (_merge_results semantic keyword hints top_k) ∧
    (_merge_results semantic keyword hints top_k).length ≤ top_k ∧
    (∀ q : ℚ,
      (sortByScoreDesc (mergedResults semantic keyword hints)).filter
          (fun e => e.score = q) =
        (mergedResults semantic keyword hints).filter (fun e => e.score = q)) := by
  refine ⟨?_, ?_, ?_, ?_, ?_⟩
  · have h1 : (pathsOf (mergedResults semantic keyword hints)).Nodup :=
      nodup_pathsOf_mergedResults _ _ _
    have h2 : (pathsOf (sortByScoreDesc (mergedResults semantic keyword hints))).Nodup := by
      have hp := (sortByScoreDesc_perm (mergedResults semantic keyword hints)).map
        (fun e => e.file_path)
      exact hp.nodup_iff.mpr h1
    have hsub : List.Sublist
        ((_merge_results semantic keyword hints top_k).map (fun e => e.file_path))
        ((sortByScoreDesc (mergedResults semantic keyword hints)).map
          (fun e => e.file_path)) :=
      (List.take_sublist _ _).map _
    exact h2.sublist hsub
  · intro e he
    have h1 : e ∈ sortByScoreDesc (mergedResults semantic keyword hints) :=
      List.take_subset _ _ he
    exact signals_mergedResults semantic keyword hints e
      ((sortByScoreDesc_perm _).mem_iff.mp h1)
  · exact (sortByScoreDesc_sorted _).sublist (List.take_sublist _ _)
  · exact List.length_take_le _ _
  · intro q
    exact filter_sortByScoreDesc _ q

/-- C5 (confirmed).  Every entry of the fusion output scores exactly the
weighted sum of its contributing signals: `Σ signal_score × signal_weight`
with weights semantic = 0.5, keyword = 0.3, hint = 0.8 (exact rationals). -/
theorem C5_fusion_weighted_sum (semantic keyword hints : List RResult)
    (top_k : Nat) (e : MergedEntry)
    (he : e ∈ _merge_results semantic keyword hints top_k) :
    e.score = sumScores semantic e.file_path * SEMANTIC_WEIGHT +
              sumScores keyword e.file_path * KEYWORD_WEIGHT +
              sumScores hints e.file_path * HINT_WEIGHT := by
  have hmem : e ∈ mergedResults semantic keyword hints := by
    have h1 : e ∈ sortByScoreDesc (mergedResults semantic keyword hints) :=
      List.take_subset _ _ he
    exact (sortByScoreDesc_perm _).mem_iff.mp h1
  have hnd := nodup_pathsOf_mergedResults semantic keyword hints
  have hscore := entryScore_eq_of_mem _ hnd e hmem
  rw [← hscore]
  have n0 : (pathsOf (semantic.foldl
      (fun m r => add_result m r SEMANTIC_WEIGHT "semantic") [])).Nodup :=
    nodup_pathsOf_fold _ _ _ _ (by simp [pathsOf])
  have n1 : (pathsOf (keyword.foldl (fun m r => add_result m r KEYWORD_WEIGHT "keyword")
      (semantic.foldl (fun m r => add_result m r SEMANTIC_WEIGHT "semantic") []))).Nodup :=
    nodup_pathsOf_fold _ _ _ _ n0
  simp only [mergedResults]
  rw [entryScore_fold hints HINT_WEIGHT "hint" _ n1 e.file_path,
    entryScore_fold keyword KEYWORD_WEIGHT "keyword" _ n0 e.file_path,
    entryScore_fold semantic SEMANTIC_WEIGHT "semantic" [] (by simp [pathsOf]) e.file_path]
  simp only [entryScore]
  ring

def semanticW : List RResult := [⟨"f.js", "c", 4 / 5, "m"⟩]
def keywordW : List RResult := [⟨"f.js", "c2", 1 / 2, "m2"⟩]
def entryW : MergedEntry := ⟨"f.js", "c", 11 / 20, ["semantic", "keyword"], "m"⟩

theorem mergeW_val : _merge_results semanticW keywordW [] 5 = [entryW] := by
  simp only [_merge_results, mergedResults, semanticW, keywordW, entryW,
    add_result, sortByScoreDesc, insertDesc, SEMANTIC_WEIGHT, KEYWORD_WEIGHT,
    List.foldl_cons, List.foldl_nil, List.any_nil, List.any_cons]
  norm_num

/-- C5 witness: a path with semantic score 0.8 and keyword score 0.5 fuses
to `0.8 × 0.5 + 0.5 × 0.3 = 0.55 = 11/20`. -/
theorem C5_fusion_weighted_sum_witness :
    entryW ∈ _merge_results semanticW keywordW [] 5 ∧
      entryW.score =
        sumScores semanticW entryW.file_path * SEMANTIC_WEIGHT +
        sumScores keywordW entryW.file_path * KEYWORD_WEIGHT +
        sumScores [] entryW.file_path * HINT_WEIGHT ∧
      entryW.score = 11 / 20 :=
  ⟨by rw [mergeW_val]; exact List.mem_singleton_self entryW,
    C5_fusion_weighted_sum semanticW keywordW [] 5 entryW
      (by rw [mergeW_val]; exact List.mem_singleton_self entryW),
    rfl⟩

/-! ## Project index (`embeddings.py`) -/

/-- `pathlib.Path(p).suffix`: the final extension of the last path
component, with its dot; empty for names without a dot and for dotfiles
such as `.gitignore`. -/
def pathSuffix (p : String) : String :=
  let name := (p.splitOn "/").getLastD ""
  match name.splitOn "." with
  | [] => ""
  | [_] => ""
  | first :: rest =>
    if first = "" ∧ rest.length = 1 then "" else "." ++ rest.getLastD ""

/-- One element of the sidecar's `files` list. -/
structure IndexFileMeta where
  file_path : String
  file_type : String
  char_count : Nat
  content : String
deriving DecidableEq

/-- The metadata sidecar written next to the index file. -/
structure IndexMetadata where
  project : String
  project_hash : String
  files_count : Nat
  files : List IndexFileMeta
deriving DecidableEq

/-- On-disk state for one project's index: whether the `.index` file
exists; the sidecar (`none`: missing, `some none`: present but unreadable
or unparsable — `index_project` swallows that and re-indexes, `some (some
m)`: parses as `m`); and the readable source files as the sorted
`(path, content)` pairs of `list_project_files` (files whose read raises
are skipped by both `compute_project_hash` and the indexing loop, so they
are left out of the model). -/
structure IndexFS where
  index_exists : Bool
  meta : Option (Option IndexMetadata)
  project_files : List (String × String)
deriving DecidableEq

/-- The result dict of `index_project` (`indexed`, `reason`, `files_count`,
`project_hash` keys; a key the branch does not set is `none`). -/
structure IndexOutcome where
  indexed : Bool
  reason : Option String
  files_count : Nat
  project_hash : Option String
deriving DecidableEq

/-- The cache-hit check of `index_project` (lines 98-111 of
`embeddings.py`): not forced, index file and parsable sidecar on disk,
stored hash equal to the freshly computed one.  Returns the stored
`files_count` on a hit. -/
def index_cache_hit (fs : IndexFS) (current_hash : String) (force : Bool) :
    Option Nat :=
  if ¬ force ∧ fs.index_exists = true then
    match fs.meta with
    | some (some m) =>
      if m.project_hash = current_hash then some m.files_count else none
    | _ => none
  else none

/-- `index_project(project, project_path, force)`.  `digest` abstracts the
md5 content hash computed by `compute_project_hash` over the sorted
`(path, content)` pairs (library code; only its determinism matters).
Returns the outcome dict, the new disk state and the number of
embedding-service batches performed (`get_embeddings` calls). -/
def index_project (digest : List (String × String) → String) (project : String)
    (fs : IndexFS) (force : Bool) : IndexOutcome × IndexFS × Nat :=
  let current_hash := digest fs.project_files
  match index_cache_hit fs current_hash force with
  | some fc =>
    ({ indexed := false, reason := some "already_indexed", files_count := fc,
       project_hash := none }, fs, 0)
  | none =>
    if fs.project_files = [] then
      ({ indexed := false, reason := some "no_files", files_count := 0,
         project_hash := none }, fs, 0)
    else
      -- one get_embeddings batch over all documents, then the index and the
      -- sidecar are written to disk (and cached in process memory); with all
      -- listed files readable the `no_readable_files` branch is unreachable
      let metadata : IndexMetadata :=
        { project := project, project_hash := current_hash,
          files_count := fs.project_files.length,
          files := fs.project_files.map fun fc =>
            { file_path := fc.1, file_type := pathSuffix fc.1,
              char_count := fc.2.length,
              content := "File: " ++ fc.1 ++ "\n\n" ++ fc.2 } }
      ({ indexed := true, reason := none,
         files_count := fs.project_files.length,
         project_hash := some current_hash },
       { fs with index_exists := true, meta := some (some metadata) }, 1)

theorem index_cache_hit_some (fs : IndexFS) (m : IndexMetadata)
    (hidx : fs.index_exists = true) (hmeta : fs.meta = some (some m))
    (hhash : m.project_hash = digestValue) :
    index_cache_hit fs digestValue false = some m.files_count := by
  unfold index_cache_hit
  rw [hmeta]
  simp [hidx, hhash]

/-- The sidecar `index_project` writes when it (re)indexes. -/
def idxMeta (digest : List (String × String) → String) (project : String)
    (fs0 : IndexFS) : IndexMetadata :=
  ⟨project, digest fs0.project_files, fs0.project_files.length,
   fs0.project_files.map fun fc =>
     ⟨fc.1, pathSuffix fc.1, fc.2.length, "File: " ++ fc.1 ++ "\n\n" ++ fc.2⟩⟩

/-- The disk state after `index_project` (re)indexes. -/
def idxState (digest : List (String × String) → String) (project : String)
    (fs0 : IndexFS) : IndexFS :=
  ⟨true, some (some (idxMeta digest project fs0)), fs0.project_files⟩

/-- C6 (confirmed).  With an index and a parsable sidecar on disk whose
stored hash equals the freshly computed content hash and `force = false`,
`index_project` returns `{indexed: false, reason: "already_indexed"}`
without calling the embedding service and without touching the disk state;
consequently two consecutive calls over unchanged project content perform
embedding work exactly once: whenever a first call indexes, the second
reports `already_indexed` with zero embedding batches. -/
theorem C6_index_cache_hit (digest : List (String × String) → String)
    (project : String) (fs : IndexFS) (m : IndexMetadata)
    (hidx : fs.index_exists = true) (hmeta : fs.meta = some (some m))
    (hhash : m.project_hash = digest fs.project_files) :
    index_project digest project fs false =
      ({ indexed := false, reason := some "already_indexed",
         files_count := m.files_count, project_hash := none }, fs, 0) ∧
    ∀ (fs0 : IndexFS),
      (index_project digest project fs0 false).1.indexed = true →
        ((index_project digest project
            (index_project digest project fs0 false).2.1 false).1.reason =
              some "already_indexed" ∧
          (index_project digest project fs0 false).2.2 = 1 ∧
          (index_project digest project
            (index_project digest project fs0 false).2.1 false).2.2 = 0) := by
  constructor
  · simp only [index_project, index_cache_hit_some fs m hidx hmeta hhash]
  · intro fs0 h
    rcases hh : index_cache_hit fs0 (digest fs0.project_files) false with _ | fc
    · by_cases hpf : fs0.project_files = []
      · simp only [index_project, hh] at h
        simp [hpf] at h
      · have hrun : index_project digest project fs0 false =
            ({ indexed := true, reason := none,
               files_count := fs0.project_files.length,
               project_hash := some (digest fs0.project_files) },
             idxState digest project fs0, 1) := by
          simp only [index_project, hh, hpf]
          simp [idxState, idxMeta]
        rw [hrun]
        have hcache := index_cache_hit_some (idxState digest project fs0)
          (idxMeta digest project fs0) rfl rfl
          (show (idxMeta digest project fs0).project_hash =
            digest (idxState digest project fs0).project_files from rfl)
        refine ⟨?_, rfl, ?_⟩
        · simp only [index_project, hcache]
        · simp only [index_project, hcache]
    · simp only [index_project, hh] at h
      simp at h

def metaW : IndexMetadata :=
  { project := "proj", project_hash := "h", files_count := 1, files := [] }
def fsHitW : IndexFS :=
  { index_exists := true, meta := some (some metaW), project_files := [("a.js", "x")] }
def fsFreshW : IndexFS :=
  { index_exists := false, meta := none, project_files := [("a.js", "x")] }

/-- C6 witness: a concrete cache hit, and a concrete index-then-hit pair,
under the constant digest. -/
theorem C6_index_cache_hit_witness :
    index_project (fun _ => "h") "proj" fsHitW false =
      ({ indexed := false, reason := some "already_indexed",
         files_count := metaW.files_count, project_hash := none }, fsHitW, 0) ∧
    ((index_project (fun _ => "h") "proj"
        (index_project (fun _ => "h") "proj" fsFreshW false).2.1 false).1.reason =
          some "already_indexed" ∧
      (index_project (fun _ => "h") "proj" fsFreshW false).2.2 = 1 ∧
      (index_project (fun _ => "h") "proj"
        (index_project (fun _ => "h") "proj" fsFreshW false).2.1 false).2.2 = 0) :=
  ⟨(C6_index_cache_hit (fun _ => "h") "proj" fsHitW metaW rfl rfl rfl).1,
   (C6_index_cache_hit (fun _ => "h") "proj" fsHitW metaW rfl rfl rfl).2 fsFreshW
     (by decide)⟩

/-! ## Import regexes of `executor.py`

`IMPORT_PATTERN` and `NPM_IMPORT_PATTERN` share the prefix
`(?:import\s+.*?\s+from\s+['"]|import\s*\(\s*['"]|require\s*\(\s*['"])` and
differ only in the capture group.  The matcher below reproduces
`re.findall` for them: scan left to right, at each position try the three
prefix alternatives in the pattern's order (`\s+` greedy, `.*?` lazy,
backtracking into the prefix when the capture group fails), record the
capture, continue scanning after the match. -/

/-- Length of the maximal `\s*` run at the front. -/
def wsRunLen (s : List Char) : Nat := (s.takeWhile isPyWs).length

/-- The suffixes `\s+` can leave, in backtracking order (longest whitespace
run first); empty when there is no leading whitespace at all. -/
def wsPlusDrops (s : List Char) : List (List Char) :=
  (List.range (wsRunLen s)).reverse.map (fun k => s.drop (k + 1))

/-- The suffixes `.*?` can leave, in lazy order (shortest consumption
first); `.` does not match a newline. -/
def lazyDrops : List Char → List (List Char)
  | [] => [[]]
  | c :: rest => (c :: rest) :: (if c = '\n' then [] else lazyDrops rest)

/-- Candidate suffixes after the prefix `import\s+.*?\s+from\s+['"]`, in
engine priority order, given the text just after the literal `import`. -/
def alt1Candidates (s1 : List Char) : List (List Char) :=
  (wsPlusDrops s1).flatMap fun s2 =>
    (lazyDrops s2).flatMap fun s3 =>
      (wsPlusDrops s3).flatMap fun s4 =>
        if ("from".toList).isPrefixOf s4 then
          (wsPlusDrops (s4.drop 4)).flatMap fun s6 =>
            match s6 with
            | c :: rest => if c = '\'' || c = '"' then [rest] else []
            | [] => []
        else []

/-- Candidate suffix after `import\s*\(\s*['"]` or `require\s*\(\s*['"]`
(`\s*` is greedy, and neither `(` nor a quote can be eaten by `\s*`, so no
backtracking arises in these alternatives). -/
def altCallCandidate (kw : List Char) (s : List Char) : List (List Char) :=
  if kw.isPrefixOf s then
    let t0 := s.drop kw.length
    let t1 := t0.drop (wsRunLen t0)
    match t1 with
    | '(' :: t2 =>
      let t3 := t2.drop (wsRunLen t2)
      match t3 with
      | c :: rest => if c = '\'' || c = '"' then [rest] else []
      | [] => []
    | _ => []
  else []

/-- All candidate capture-start suffixes at one position, prefix
alternatives in the pattern's order. -/
def importPrefixCandidates (s : List Char) : List (List Char) :=
  (if ("import".toList).isPrefixOf s then alt1Candidates (s.drop 6) else []) ++
  altCallCandidate "import".toList s ++ altCallCandidate "require".toList s

/-- The run of non-quote characters before the next quote: the body both
capture groups end with (`[^'"]+` greedy and `[^'"]*?` lazy both stop at
the first quote, which the pattern then consumes). -/
def takeToQuote (s : List Char) : List Char :=
  s.takeWhile (fun c => !(c = '\'' || c = '"'))

def dropToQuote (s : List Char) : List Char :=
  s.dropWhile (fun c => !(c = '\'' || c = '"'))

/-- The relative-import capture `(\.\.?/[^'"]+)['"]`: one or two dots, a
slash, at least one non-quote character, then the closing quote. -/
def capRelative (s : List Char) : Option (List Char × List Char) :=
  let go (dots rest : List Char) : Option (List Char × List Char) :=
    match takeToQuote rest, dropToQuote rest with
    | [], _ => none
    | _, [] => none
    | run, _ :: after => some (dots ++ run, after)
  if ("../".toList).isPrefixOf s then go ("../".toList) (s.drop 3)
  else if ("./".toList).isPrefixOf s then go ("./".toList) (s.drop 2)
  else none

/-- The npm capture `([^'".][^'"]*?)['"]`: a first character that is not a
quote or a dot, everything up to the next quote, then the quote. -/
def capNpm (s : List Char) : Option (List Char × List Char) :=
  match s with
  | [] => none
  | c :: _ =>
    if c = '\'' || c = '"' || c = '.' then none
    else
      match dropToQuote s with
      | [] => none
      | _ :: after => some (takeToQuote s, after)

/-- One attempted match at the current position: the first prefix candidate
whose capture succeeds, as `re` backtracking finds it. -/
def importMatchAt (cap : List Char → Option (List Char × List Char))
    (s : List Char) : Option (List Char × List Char) :=
  (importPrefixCandidates s).findSome? cap

/-- `re.findall` for the two import patterns; fuel starts at the content
length, and every match consumes at least one character. -/
def importFindAll (cap : List Char → Option (List Char × List Char)) :
    Nat → List Char → List (List Char)
  | 0, _ => []
  | _, [] => []
  | fuel + 1, c :: rest =>
    match importMatchAt cap (c :: rest) with
    | some (g, after) => g :: importFindAll cap fuel after
    | none => importFindAll cap fuel rest

/-- `IMPORT_PATTERN.findall(content)`: relative imports. -/
def IMPORT_PATTERN_findall (content : List Char) : List (List Char) :=
  importFindAll capRelative content.length content

/-- `NPM_IMPORT_PATTERN.findall(content)`: package imports. -/
def NPM_IMPORT_PATTERN_findall (content : List Char) : List (List Char) :=
  importFindAll capNpm content.length content

/-! ## Executor validations (`executor.py`) -/

/-- One modification dict from the executor's JSON response.  Python `None`
and `""` are both falsy and are treated identically by every check the
executor performs, so a missing key is modelled as the empty string.
`action` is unused under the modelled `full_content` output format (the
`agent_output_format` settings default this development embeds). -/
structure ModEntry where
  file : String
  content : String
  action : String
deriving DecidableEq

/-- `_resolve_import(from_file, import_path)`. -/
def _resolve_import (from_file import_path : String) : String :=
  -- str(Path(from_file).parent): drop the last `/`-component, "." at top level
  let ps := from_file.splitOn "/"
  let from_dir := if ps.length ≤ 1 then "." else String.intercalate "/" ps.dropLast
  let parts := if from_dir.contains '/' then from_dir.splitOn "/"
               else from_dir.splitOn "\\"
  let parts := (import_path.splitOn "/").foldl
    (fun parts seg =>
      if seg = ".." then parts.dropLast
      else if seg = "." then parts
      else parts ++ [seg]) parts
  String.intercalate "/" parts

/-- `_import_exists(resolved_path, all_files)`. -/
def _import_exists (resolved_path : String) (all_files : List String) : Bool :=
  all_files.contains resolved_path ||
  ([".js", ".jsx", ".ts", ".tsx", ".json",
    "/index.js", "/index.jsx", "/index.ts", "/index.tsx"].any fun ext =>
    all_files.contains (resolved_path ++ ext) ||
    all_files.any fun f =>
      (f.replace "\\" "/") = ((resolved_path.replace "\\" "/") ++ ext))

/-- `_validate_imports(modifications, existing_contents, project_path)`:
every relative import of every generated file must resolve against the
union of the project listing and the generated file set.  The
`existing_contents` dict is accepted but never read by the source, which
lists the project directory instead (`existing_files` here). -/
def _validate_imports (modifications : List ModEntry)
    (existing_contents : List (String × String))
    (existing_files : List String) : Option String :=
  let modified_files := modifications.map (fun m => m.file)
  -- set union: only membership of `all_files` is ever used
  let all_files := existing_files ++ modified_files
  let errors := modifications.foldl (fun errors m =>
    if m.file = "" ∨ m.content = "" then errors
    else
      (IMPORT_PATTERN_findall m.content.data).foldl (fun errors imp =>
        let impStr : String := ⟨imp⟩
        if _import_exists (_resolve_import m.file impStr) all_files then errors
        else errors ++
          ["'" ++ m.file ++ "' imports '" ++ impStr ++ "' but file not found"])
        errors) []
  if errors = [] then none
  else some (String.intercalate "; " (errors.take 3))

/-- Ascending insertion of a string, for Python `sorted`. -/
def insortStr (x : String) : List String → List String
  | [] => [x]
  | y :: ys => if y < x then y :: insortStr x ys else x :: y :: ys

def sortStrings (l : List String) : List String := l.foldr insortStr []

/-- `_check_npm_imports(modifications, project_path)`: `none` when the
`node_modules` directory is absent (check skipped), else the installed
package listing. -/
def _check_npm_imports (modifications : List ModEntry)
    (node_modules : Option (List String)) : Option String :=
  match node_modules with
  | none => none
  | some installed =>
    let missing := modifications.foldl (fun missing m =>
      if m.content = "" then missing
      else
        (NPM_IMPORT_PATTERN_findall m.content.data).foldl (fun missing imp =>
          let impStr : String := ⟨imp⟩
          if impStr.startsWith "." then missing
          else
            let package_name :=
              if impStr.startsWith "@" then
                let parts := impStr.splitOn "/"
                if 2 ≤ parts.length then String.intercalate "/" (parts.take 2)
                else impStr
              else (impStr.splitOn "/").headD ""
            if installed.contains package_name || missing.contains package_name
            then missing
            else missing ++ [package_name]) missing) []
    if missing = [] then none
    else some ("Missing npm packages: " ++
      String.intercalate ", " (sortStrings missing) ++
      ". These packages are not installed in the project.")

/-- `_parse_executor_response` under the `full_content` output format: keep
`(file, content)` for every modification with a truthy file and content. -/
def _parse_executor_response (modifications : List ModEntry) : List (String × String) :=
  modifications.filterMap fun m =>
    if m.file = "" then none
    else if m.content = "" then none
    else some (m.file, m.content)

/-- Python `dict.get` over an association list with unique keys. -/
def dictGet (d : List (String × String)) (k : String) : Option String :=
  (d.find? (fun kv => kv.1 = k)).map (fun kv => kv.2)

/-- The diff-generation loop of `execute_plan` (full_content branch, lines
641-655): one unified diff per parsed modification against the current
contents, keeping only diffs with non-empty text; the combined diff
concatenates exactly these. -/
def buildDiffs (parsed : List (String × String))
    (file_contents : List (String × String)) : List (String × List DiffOp) :=
  parsed.filterMap fun fc =>
    if fc.1 = "" ∨ fc.2 = "" then none
    else
      let ops := generate_unified_diff ((dictGet file_contents fc.1).getD "") fc.2
      if diffOpsEmpty ops then none else some (fc.1, ops)

/-- `set(plan.files_to_create) - modified_files` (the join order in the
error message models one admissible iteration order of the Python set). -/
def missing_creates (files_to_create : List String)
    (modifications : List ModEntry) : List String :=
  files_to_create.eraseDups.filter fun f =>
    !((modifications.map (fun m => m.file)).contains f)

/-! ## Build validation (`executor.py` lines 70-248) -/

/-- The `BuildValidationResult` dataclass. -/
structure BuildValidationResult where
  success : Bool
  error_output : Option String := none
  error_type : Option String := none
deriving DecidableEq

/-- Behaviour of the `npm run build` subprocess (an external tool). -/
inductive BuildOutcome
  | timeout                                      -- subprocess.TimeoutExpired
  | exit (returncode : Nat) (stdout stderr : String)
  | npmMissing                                   -- FileNotFoundError
  | raised (msg : String)                        -- any other exception
deriving DecidableEq

/-- `_classify_error(error_output)`: scan the lowercased text for the error
signatures, first match wins. -/
def _classify_error (error_output : String) : String :=
  let e := toLowerL error_output.data
  if listContains e ("syntaxerror".data) || listContains e ("unexpected token".data)
  then "syntax"
  else if listContains e ("typeerror".data) || listContains e ("type error".data)
  then "type"
  else if listContains e ("cannot find module".data) ||
          listContains e ("failed to resolve import".data)
  then "import"
  else if listContains e ("referenceerror".data) || listContains e ("is not defined".data)
  then "reference"
  else if listContains e ("eslint".data) || listContains e ("lint".data)
  then "lint"
  else "build"

/-- Lines 147-148 of `executor.py`: truncate error output beyond 2000
characters. -/
def truncateError (s : String) : String :=
  if 2000 < s.length then (⟨s.data.take 2000⟩ : String) ++ "\n... (truncated)" else s

/-- `validate_build(project_path, timeout_seconds)`: no `package.json`
skips validation as a pass; a timeout is a pass; npm missing falls back to
`_validate_syntax_only`, which passes; a non-zero exit classifies the
stripped stderr (or stdout when stderr is empty) and fails; an unexpected
exception fails with type "validation". -/
def validate_build (package_json_exists : Bool) (build : BuildOutcome) :
    BuildValidationResult :=
  if ¬ package_json_exists then { success := true }
  else
    match build with
    | .timeout => { success := true }
    | .npmMissing => { success := true }
    | .raised msg =>
      { success := false, error_output := some ("Validation error: " ++ msg),
        error_type := some "validation" }
    | .exit rc stdout stderr =>
      let stdout_text := pyStrip stdout.data
      let stderr_text := pyStrip stderr.data
      if rc = 0 then { success := true }
      else
        let error_output : String :=
          if stderr_text ≠ [] then (⟨stderr_text⟩ : String) else (⟨stdout_text⟩ : String)
        { success := false,
          error_output := some (truncateError error_output),
          error_type := some (_classify_error error_output) }

/-- `_revert_changes(project_path, combined_diff)`: true iff the
`git checkout -- .` subprocess ran and exited 0 (every exception is caught
and turned into false). -/
def _revert_changes (git_checkout_ok : Bool) : Bool := git_checkout_ok

/-! ## Executor retry loop (`executor.py` lines 448-761)

The loop is embedded under the `full_content` output format (the
`agent_output_format` settings default).  External nondeterminism — the
language-model response, the git subprocess, the build subprocess and the
revert subprocess — is a per-attempt environment; all validation logic,
branch ordering and accumulator updates are the source's. -/

/-- The `ExecutionStep` dataclass of the planner. -/
structure ExecutionStep where
  step_number : Int
  action : String
  file_path : String
  description : String
  depends_on : List Int
deriving DecidableEq

/-- The `ExecutionPlan` dataclass of the planner. -/
structure ExecutionPlan where
  steps : List ExecutionStep
  files_to_modify : List String
  files_to_create : List String
  estimated_changes : Int
  reasoning : String
deriving DecidableEq

/-- Lines 492-495: one numbered line per plan step. -/
def plan_summary (plan : ExecutionPlan) : String :=
  String.intercalate "\n" (plan.steps.map fun st =>
    toString st.step_number ++ ". [" ++ st.action.toUpper ++ "] " ++
      st.file_path ++ ": " ++ st.description)

/-- Lines 498-502: the explicit reminder when files must be created. -/
def files_to_create_reminder (plan : ExecutionPlan) : String :=
  if plan.files_to_create = [] then ""
  else "\n\n⚠️ IMPORTANT: You MUST create these new files:\n" ++
    String.intercalate "\n" (plan.files_to_create.map (fun f => "  - " ++ f))

/-- `set(plan.files_to_modify + plan.files_to_create)` (line 483); Python
set iteration order is implementation defined, first-occurrence order is
one admissible order and nothing below depends on it. -/
def target_files (plan : ExecutionPlan) : List String :=
  (plan.files_to_modify ++ plan.files_to_create).eraseDups

/-- Lines 484-489: the per-file context blocks of the prompt. -/
def files_context (plan : ExecutionPlan)
    (file_contents : List (String × String)) : String :=
  String.join ((target_files plan).map fun fp =>
    match dictGet file_contents fp with
    | some c => "\n--- " ++ fp ++ " (MODIFY) ---\n" ++ c ++ "\n"
    | none => "\n--- " ++ fp ++ " (CREATE - new file, generate full content) ---\n")

/-- `EXECUTOR_RETRY_PROMPT` (`prompts/executor.py`) up to its `{error}`
placeholder. -/
def EXECUTOR_RETRY_PROMPT_pre : String := "## PREVIOUS ATTEMPT FAILED\n\n**Error:**\n"

/-- `EXECUTOR_RETRY_PROMPT` after its `{error}` placeholder. -/
def EXECUTOR_RETRY_PROMPT_post : String := "\n
## ANALYSIS & FIX INSTRUCTIONS

### Common Errors and Solutions:

**Import/Module Errors:**
- \"Failed to resolve import 'X'\" → You referenced a file that doesn't exist
- \"Cannot find module 'X'\" → You used a library not installed in the project
- FIX: Create the missing file OR use an already-imported alternative

**Missing NPM Package:**
- \"react-icons/fa\" not found → Use `lucide-react` if that's what's imported
- Check existing imports and use ONLY those libraries
- FIX: Find what icon/animation library IS imported and use that instead

**Search/Replace Failures:**
- \"Search text not found\" → Your SEARCH block doesn't match file exactly
- FIX: Copy exact text from file including all whitespace

**Diff Apply Failures:**
- Line numbers are wrong or context doesn't match
- FIX: Regenerate diff with correct line numbers

### Before Retrying:
1. Re-read the file contents provided
2. Check what libraries are ACTUALLY imported
3. Ensure all referenced files will exist after your changes

## Return CORRECTED modifications:"

/-- The user prompt of one attempt (lines 508-522): the instruction, the
plan summary, the creation reminder, the file context, the retry feedback
when a previous attempt failed, and the closing line. -/
def build_user_prompt (instruction : String) (plan : ExecutionPlan)
    (file_contents : List (String × String)) (last_error : Option String) : String :=
  let base := "Instruction: " ++ instruction ++ "\n\nExecution Plan:\n" ++
    plan_summary plan ++ "\n" ++ files_to_create_reminder plan ++
    "\n\nCurrent Files:\n" ++ files_context plan file_contents ++ "\n"
  let withRetry := match last_error with
    | some e => base ++ "\n\n" ++ EXECUTOR_RETRY_PROMPT_pre ++ e ++
        EXECUTOR_RETRY_PROMPT_post
    | none => base
  withRetry ++ "\nGenerate the modifications:"

/-- The `ExecutionAttempt` dataclass; `diff` is the attempt's combined diff
as per-file opcode streams (`[]` models the empty string). -/
structure ExecutionAttempt where
  attempt_number : Nat
  success : Bool
  diff : List (String × List DiffOp)
  error : Option String := none
  tokens_used : Nat := 0
deriving DecidableEq

/-- `ExecutionResult.diffs` is dynamically typed in Python: a list of
`{file_path, diff}` dicts on success, the failed attempts' non-empty
combined diffs on exhaustion. -/
inductive ResultDiffs
  | perFile (l : List (String × List DiffOp))
  | attemptDiffs (l : List (List (String × List DiffOp)))
deriving DecidableEq

/-- The `ExecutionResult` dataclass. -/
structure ExecutionResult where
  success : Bool
  diffs : ResultDiffs
  files_modified : List String
  attempts : List ExecutionAttempt
  total_tokens : Nat
  error : Option String := none
deriving DecidableEq

/-- Outcome of one generation call: an exception from the
`chat.completions.create` call itself (no usage returned), a response
whose content fails `json.loads` (usage was already added to
`total_tokens` at line 542 when line 548 raises), or a parsed response
with its `modifications` list. -/
inductive GenOutcome
  | raised (msg : String)
  | badJson (tokens : Nat) (msg : String)
  | ok (tokens : Nat) (modifications : List ModEntry)
deriving DecidableEq

/-- Tokens the attempt's generation call consumed (0 when the call itself
raised before returning a usage count). -/
def genTokens : GenOutcome → Nat
  | .raised _ => 0
  | .badJson t _ => t
  | .ok t _ => t

/-- The external behaviour one attempt can observe. -/
structure AttemptEnv where
  gen : GenOutcome
  gitApply : GitApplyOutcome
  build : BuildOutcome
  revertOk : Bool
deriving DecidableEq

/-- The executor's arguments and the surrounding filesystem facts. -/
structure ExecConfig where
  instruction : String
  plan : ExecutionPlan
  file_contents : List (String × String)
  existing_files : List String          -- list_project_files(project_path)
  node_modules : Option (List String)   -- none: no node_modules directory
  package_json_exists : Bool
  max_retries : Nat
  run_validation : Bool
deriving DecidableEq

/-- Observable external calls of a run, in order. -/
inductive Ev
  | generate (attempt : Nat) (prompt : String)
  | applyCall (attempt : Nat)
  | validateCall (attempt : Nat)
  | revertCall (attempt : Nat)
deriving DecidableEq

/-- The loop-local accumulators of `execute_plan`. -/
structure LoopState where
  attempts : List ExecutionAttempt
  total_tokens : Nat
  last_error : Option String
deriving DecidableEq

/-- `attempts.append(ExecutionAttempt(..., success=False, ...));
last_error = feedback` — the shared shape of every failure branch.
`att_error` is the recorded attempt error and `feedback` the string
carried into the next prompt; they differ only in the no-modifications and
no-actual-changes branches. -/
def recordFailure (st : LoopState) (n : Nat) (d : List (String × List DiffOp))
    (att_error feedback : String) (tokens_used : Nat) : LoopState :=
  { st with
    attempts := st.attempts ++ [⟨n, false, d, some att_error, tokens_used⟩],
    last_error := some feedback }

/-- Lines 710-725: append the successful attempt and build the result. -/
def recordSuccess (st : LoopState) (n : Nat) (diffs : List (String × List DiffOp))
    (tokens : Nat) : LoopState × ExecutionResult :=
  let st2 := { st with attempts := st.attempts ++ [⟨n, true, diffs, none, tokens⟩] }
  (st2,
   { success := true, diffs := .perFile diffs,
     files_modified := diffs.map (fun d => d.1),
     attempts := st2.attempts, total_tokens := st2.total_tokens, error := none })

/-- Python `f"{x}"` of an optional string (`None` prints as "None"). -/
def pyShowOpt : Option String → String
  | none => "None"
  | some s => s

/-- One iteration of the retry loop (lines 504-749) under the
`full_content` output format: build the prompt, generate, run the
validation cascade, diff, apply, optionally build-validate with
revert-on-failure.  Returns the updated loop state, the external calls
made, and `some result` exactly on the success path. -/
def runAttempt (cfg : ExecConfig) (ae : AttemptEnv) (n : Nat) (st : LoopState) :
    LoopState × List Ev × Option ExecutionResult :=
  let prompt := build_user_prompt cfg.instruction cfg.plan cfg.file_contents
    st.last_error
  match ae.gen with
  | .raised msg =>
    -- `except Exception` (lines 741-749): recorded with default tokens_used=0
    (recordFailure st n [] msg msg 0, [.generate n prompt], none)
  | .badJson tokens msg =>
    -- usage was added to total_tokens (line 542) before json.loads raised
    (recordFailure { st with total_tokens := st.total_tokens + tokens } n []
      msg msg 0, [.generate n prompt], none)
  | .ok tokens modifications =>
    let st := { st with total_tokens := st.total_tokens + tokens }
    if modifications = [] then
      (recordFailure st n [] "No modifications returned"
        "No modifications returned by LLM" tokens, [.generate n prompt], none)
    else
      let missing := missing_creates cfg.plan.files_to_create modifications
      if missing ≠ [] then
        let error_msg := "Missing required new files: " ++
          String.intercalate ", " missing ++ ". You MUST create these files."
        (recordFailure st n [] error_msg error_msg tokens,
         [.generate n prompt], none)
      else
        match _validate_imports modifications cfg.file_contents cfg.existing_files with
        | some e =>
          let error_msg := "Import validation failed: " ++ e
          (recordFailure st n [] error_msg error_msg tokens,
           [.generate n prompt], none)
        | none =>
          match _check_npm_imports modifications cfg.node_modules with
          | some e =>
            let error_msg := "NPM import validation failed: " ++ e
            (recordFailure st n [] error_msg error_msg tokens,
             [.generate n prompt], none)
          | none =>
            let diffs := buildDiffs (_parse_executor_response modifications)
              cfg.file_contents
            if diffs = [] then
              (recordFailure st n [] "No actual changes generated"
                "Generated code was identical to original" tokens,
               [.generate n prompt], none)
            else
              -- a non-empty diff list concatenates to text with `--- a/`
              -- headers, which never strips to blank, so git is reached
              let apply_result := (apply_with_git_core "" ae.gitApply).1
              if apply_result.success then
                if cfg.run_validation then
                  let validation_result :=
                    validate_build cfg.package_json_exists ae.build
                  if validation_result.success then
                    let (st2, res) := recordSuccess st n diffs tokens
                    (st2, [.generate n prompt, .applyCall n, .validateCall n],
                     some res)
                  else
                    -- `_revert_changes` runs here; its Bool result is logged only
                    let error_msg := "Build failed (" ++
                      pyShowOpt validation_result.error_type ++ " error):\n" ++
                      pyShowOpt validation_result.error_output
                    (recordFailure st n diffs error_msg error_msg tokens,
                     [.generate n prompt, .applyCall n, .validateCall n,
                      .revertCall n], none)
                else
                  let (st2, res) := recordSuccess st n diffs tokens
                  (st2, [.generate n prompt, .applyCall n], some res)
              else
                (recordFailure st n diffs apply_result.message
                  apply_result.message tokens,
                 [.generate n prompt, .applyCall n], none)

/-- The retry loop from attempt `n` with `remaining` attempts left, ending
in the exhaustion result of lines 751-761. -/
def execFrom (cfg : ExecConfig) (env : Nat → AttemptEnv) :
    Nat → Nat → LoopState → ExecutionResult × List Ev
  | _, 0, st =>
    ({ success := false,
       diffs := .attemptDiffs (st.attempts.filterMap fun a =>
         if a.diff = [] then none else some a.diff),
       files_modified := [],
       attempts := st.attempts,
       total_tokens := st.total_tokens,
       error := some ("Failed after " ++ toString cfg.max_retries ++
         " attempts: " ++ pyShowOpt st.last_error) }, [])
  | n, remaining + 1, st =>
    match runAttempt cfg (env n) n st with
    | (_, evs, some res) => (res, evs)
    | (st2, evs, none) =>
      let rest := execFrom cfg env (n + 1) remaining st2
      (rest.1, evs ++ rest.2)

/-- `execute_plan(instruction, plan, project_path, file_contents,
max_retries, run_validation, validation_timeout)`: attempts
`1..max_retries` and the trace of external calls.  The model is a total
function: every per-attempt exception in the source is caught inside the
loop (lines 741-749) — the "never raise past this boundary" guarantee. -/
def execute_plan (cfg : ExecConfig) (env : Nat → AttemptEnv) :
    ExecutionResult × List Ev :=
  execFrom cfg env 1 cfg.max_retries ⟨[], 0, none⟩

theorem str_data_append (s t : String) : (s ++ t).data = s.data ++ t.data := rfl

theorem runAttempt_state (cfg : ExecConfig) (ae : AttemptEnv) (n : Nat)
    (st : LoopState) :
    ((runAttempt cfg ae n st).1).total_tokens = st.total_tokens + genTokens ae.gen ∧
    ((runAttempt cfg ae n st).1).attempts.length = st.attempts.length + 1 := by
  unfold runAttempt
  cases ae.gen <;>
    simp only [genTokens] <;>
    (repeat' split) <;>
    simp_all [recordFailure, recordSuccess]

theorem runAttempt_failure (cfg : ExecConfig) (ae : AttemptEnv) (n : Nat)
    (st st2 : LoopState) (evs : List Ev)
    (h : runAttempt cfg ae n st = (st2, evs, none)) :
    ∃ att fb, st2.attempts = st.attempts ++ [att] ∧ st2.last_error = some fb ∧
      att.attempt_number = n ∧ att.success = false ∧
      ∃ aerr, att.error = some aerr ∧
        (aerr ≠ "No actual changes generated" →
          listContains fb.data aerr.data = true) := by
  unfold runAttempt at h
  cases hg : ae.gen <;> rw [hg] at h <;> simp only [] at h
  case raised msg =>
    rw [Prod.mk.injEq] at h
    obtain ⟨h1, -⟩ := h
    subst h1
    exact ⟨_, msg, rfl, rfl, rfl, rfl, msg, rfl, fun _ => listContains_self _⟩
  case badJson tokens msg =>
    rw [Prod.mk.injEq] at h
    obtain ⟨h1, -⟩ := h
    subst h1
    exact ⟨_, msg, rfl, rfl, rfl, rfl, msg, rfl, fun _ => listContains_self _⟩
  case ok tokens modifications =>
    revert h
    repeat' split
    all_goals intro h
    all_goals rw [Prod.mk.injEq] at h
    all_goals obtain ⟨h1, h2⟩ := h
    all_goals rw [Prod.mk.injEq] at h2
    all_goals obtain ⟨-, h2o⟩ := h2
    all_goals first
      | exact Option.noConfusion h2o
      | (subst h1
         refine ⟨_, _, rfl, rfl, rfl, rfl, _, rfl, ?_⟩
         intro hne
         first
           | exact listContains_self _
           | exact absurd rfl hne
           | decide)

theorem runAttempt_success (cfg : ExecConfig) (ae : AttemptEnv) (n : Nat)
    (st st2 : LoopState) (evs : List Ev) (res : ExecutionResult)
    (h : runAttempt cfg ae n st = (st2, evs, some res)) :
    res.success = true ∧
    res.total_tokens = st.total_tokens + genTokens ae.gen ∧
    res.attempts.length = st.attempts.length + 1 := by
  obtain ⟨gen, gitA, bld, rev⟩ := ae
  unfold runAttempt at h
  dsimp only at h ⊢
  cases gen
  case raised msg =>
    rw [Prod.mk.injEq] at h
    obtain ⟨-, h2⟩ := h
    rw [Prod.mk.injEq] at h2
    exact Option.noConfusion h2.2
  case badJson tokens msg =>
    rw [Prod.mk.injEq] at h
    obtain ⟨-, h2⟩ := h
    rw [Prod.mk.injEq] at h2
    exact Option.noConfusion h2.2
  case ok tokens modifications =>
    simp only [] at h
    revert h
    repeat' split
    all_goals intro h
    all_goals rw [Prod.mk.injEq] at h
    all_goals obtain ⟨h1, h2⟩ := h
    all_goals rw [Prod.mk.injEq] at h2
    all_goals obtain ⟨-, h2o⟩ := h2
    all_goals first
      | exact Option.noConfusion h2o
      | (have hres := (Option.some.inj h2o).symm
         subst hres
         simp [recordSuccess, genTokens])

theorem range_map_sum_shift (k : Nat) (f : Nat → Nat) :
    ((List.range (k + 1)).map f).sum =
      f 0 + ((List.range k).map (fun i => f (i + 1))).sum := by
  rw [List.range_succ_eq_map]
  simp [List.map_map, Function.comp_def]

theorem execFrom_accounting (cfg : ExecConfig) (env : Nat → AttemptEnv) :
    ∀ (r n : Nat) (st : LoopState),
      ∃ k, k ≤ r ∧
        ((execFrom cfg env n r st).1).attempts.length = st.attempts.length + k ∧
        ((execFrom cfg env n r st).1).total_tokens =
          st.total_tokens +
            ((List.range k).map (fun i => genTokens (env (n + i)).gen)).sum := by
  intro r
  induction r with
  | zero =>
    intro n st
    exact ⟨0, le_refl 0, rfl, by simp [execFrom]⟩
  | succ r ih =>
    intro n st
    rcases hrun : runAttempt cfg (env n) n st with ⟨st2, evs, ores⟩
    cases ores with
    | some res =>
      obtain ⟨-, htok, hlen⟩ := runAttempt_success cfg (env n) n st st2 evs res hrun
      have hst2 := (runAttempt_state cfg (env n) n st).2
      rw [hrun] at hst2
      refine ⟨1, by omega, ?_, ?_⟩
      · show ((execFrom cfg env n (r + 1) st).1).attempts.length = _
        unfold execFrom
        rw [hrun]
        simpa using hlen
      · show ((execFrom cfg env n (r + 1) st).1).total_tokens = _
        unfold execFrom
        rw [hrun]
        simpa using htok
    | none =>
      obtain ⟨k, hk, hlen, htok⟩ := ih (n + 1) st2
      have hst := runAttempt_state cfg (env n) n st
      rw [hrun] at hst
      refine ⟨k + 1, by omega, ?_, ?_⟩
      · show ((execFrom cfg env n (r + 1) st).1).attempts.length = _
        unfold execFrom
        rw [hrun]
        simp only []
        rw [hlen]
        simp at hst
        omega
      · show ((execFrom cfg env n (r + 1) st).1).total_tokens = _
        unfold execFrom
        rw [hrun]
        simp only []
        rw [htok]
        simp only at hst
        rw [hst.1, range_map_sum_shift]
        have : ∀ i, n + 1 + i = n + (i + 1) := by omega
        simp only [this, Nat.add_zero]
        omega

theorem getLast?_append_singleton {α : Type} (l : List α) (a : α) :
    (l ++ [a]).getLast? = some a := by
  induction l with
  | nil => rfl
  | cons x xs ih =>
    rw [List.cons_append]
    cases hxs : xs ++ [a] with
    | nil => exact absurd hxs (by simp)
    | cons y ys =>
      rw [List.getLast?_cons_cons, ← hxs, ih]

/-- The invariant tying the last recorded attempt to the carried feedback
string: the feedback contains the attempt's recorded error, except in the
no-actual-changes branch, whose feedback is worded differently. -/
def StInv (st : LoopState) : Prop :=
  ∀ a, st.attempts.getLast? = some a →
    ∃ fb aerr, st.last_error = some fb ∧ a.error = some aerr ∧
      (aerr ≠ "No actual changes generated" →
        listContains fb.data aerr.data = true)

theorem runAttempt_inv (cfg : ExecConfig) (ae : AttemptEnv) (n : Nat)
    (st st2 : LoopState) (evs : List Ev)
    (h : runAttempt cfg ae n st = (st2, evs, none)) : StInv st2 := by
  obtain ⟨att, fb, hatt, hle, -, -, aerr, haerr, hcont⟩ :=
    runAttempt_failure cfg ae n st st2 evs h
  intro a ha
  rw [hatt, getLast?_append_singleton] at ha
  have heq := Option.some.inj ha
  subst heq
  exact ⟨fb, aerr, hle, haerr, hcont⟩

theorem execFrom_failure_len (cfg : ExecConfig) (env : Nat → AttemptEnv) :
    ∀ (r n : Nat) (st : LoopState),
      ((execFrom cfg env n r st).1).success = false →
      ((execFrom cfg env n r st).1).attempts.length = st.attempts.length + r := by
  intro r
  induction r with
  | zero => intro n st _; rfl
  | succ r ih =>
    intro n st hf
    rcases hrun : runAttempt cfg (env n) n st with ⟨st2, evs, ores⟩
    cases ores with
    | some res =>
      have hs := (runAttempt_success cfg (env n) n st st2 evs res hrun).1
      have hres : (execFrom cfg env n (r + 1) st).1 = res := by
        rw [execFrom, hrun]
      rw [hres, hs] at hf
      exact absurd hf (by simp)
    | none =>
      have hst := (runAttempt_state cfg (env n) n st).2
      rw [hrun] at hst
      have hres : (execFrom cfg env n (r + 1) st).1 =
          (execFrom cfg env (n + 1) r st2).1 := by
        rw [execFrom, hrun]
      rw [hres] at hf ⊢
      rw [ih (n + 1) st2 hf]
      simp only at hst
      omega

theorem execFrom_error_contains (cfg : ExecConfig) (env : Nat → AttemptEnv) :
    ∀ (r n : Nat) (st : LoopState), StInv st →
      ((execFrom cfg env n r st).1).success = false →
      ∀ a aerr, ((execFrom cfg env n r st).1).attempts.getLast? = some a →
        a.error = some aerr → aerr ≠ "No actual changes generated" →
        ∃ e, ((execFrom cfg env n r st).1).error = some e ∧
          listContains e.data aerr.data = true := by
  intro r
  induction r with
  | zero =>
    intro n st hinv _ a aerr hlast haerr hne
    obtain ⟨fb, aerr', hle, haerr', hcont⟩ := hinv a hlast
    have heq : aerr' = aerr := by
      rw [haerr] at haerr'
      exact (Option.some.inj haerr').symm
    subst heq
    refine ⟨"Failed after " ++ toString cfg.max_retries ++ " attempts: " ++
      pyShowOpt st.last_error, ?_, ?_⟩
    · rfl
    · rw [hle]
      show listContains ((("Failed after " ++ toString cfg.max_retries ++
        " attempts: ") ++ fb)).data aerr'.data = true
      rw [str_data_append]
      have hx : ("Failed after " ++ toString cfg.max_retries ++ " attempts: ").data
          ++ fb.data =
          ("Failed after " ++ toString cfg.max_retries ++ " attempts: ").data
          ++ fb.data ++ [] := by simp
      rw [hx]
      exact listContains_mono _ _ _ _ (hcont hne)
  | succ r ih =>
    intro n st hinv hf a aerr hlast haerr hne
    rcases hrun : runAttempt cfg (env n) n st with ⟨st2, evs, ores⟩
    cases ores with
    | some res =>
      have hs := (runAttempt_success cfg (env n) n st st2 evs res hrun).1
      have hres : (execFrom cfg env n (r + 1) st).1 = res := by
        rw [execFrom, hrun]
      rw [hres, hs] at hf
      exact absurd hf (by simp)
    | none =>
      have hres : (execFrom cfg env n (r + 1) st).1 =
          (execFrom cfg env (n + 1) r st2).1 := by
        rw [execFrom, hrun]
      rw [hres] at hf hlast ⊢
      exact ih (n + 1) st2 (runAttempt_inv cfg (env n) n st st2 evs hrun)
        hf a aerr hlast haerr hne

/-- C9 (corrected).  `total_tokens` of every `ExecutionResult` is the sum
of the tokens consumed by the generation call of each attempt — failed
attempts and attempts that later raised included (line 542 adds the usage
before any parsing or validation can fail).  The claim's second half is
what the counterexample refutes: an attempt that raises after generation
records `tokens_used = 0` (dataclass default, line 743-748), so
`total_tokens` can exceed the sum of `tokens_used` over the recorded
attempts. -/
theorem C9_total_tokens_generation_sum (cfg : ExecConfig)
    (env : Nat → AttemptEnv) :
    (execute_plan cfg env).1.total_tokens =
      ((List.range (execute_plan cfg env).1.attempts.length).map
        (fun i => genTokens (env (1 + i)).gen)).sum := by
  obtain ⟨k, -, hlen, htok⟩ :=
    execFrom_accounting cfg env cfg.max_retries 1 ⟨[], 0, none⟩
  show (execFrom cfg env 1 cfg.max_retries ⟨[], 0, none⟩).1.total_tokens = _
  have hk : (execFrom cfg env 1 cfg.max_retries ⟨[], 0, none⟩).1.attempts.length
      = k := by simpa using hlen
  show _ = ((List.range (execFrom cfg env 1 cfg.max_retries
    ⟨[], 0, none⟩).1.attempts.length).map (fun i => genTokens (env (1 + i)).gen)).sum
  rw [hk]
  simpa using htok

def planC9 : ExecutionPlan :=
  { steps := [], files_to_modify := ["a.js"], files_to_create := [],
    estimated_changes := 0, reasoning := "" }

def cfgC9 : ExecConfig :=
  { instruction := "i", plan := planC9, file_contents := [("a.js", "x")],
    existing_files := ["a.js"], node_modules := none,
    package_json_exists := false, max_retries := 1, run_validation := true }

def envC9 : Nat → AttemptEnv :=
  fun _ => { gen := .badJson 100 "Expecting value: line 1 column 1 (char 0)",
             gitApply := .exit 0 "", build := .timeout, revertOk := true }

/-- C9 counterexample: a generation response that fails `json.loads` bills
its 100 tokens to `total_tokens`, but the recorded attempt carries
`tokens_used = 0`, so `total_tokens` differs from the sum of `tokens_used`
over the attempts. -/
theorem C9_total_tokens_counterexample :
    (execute_plan cfgC9 envC9).1.total_tokens = 100 ∧
    ((execute_plan cfgC9 envC9).1.attempts.map (fun a => a.tokens_used)) = [0] ∧
    ((execute_plan cfgC9 envC9).1.attempts.map (fun a => a.tokens_used)).sum ≠
      (execute_plan cfgC9 envC9).1.total_tokens := by
  refine ⟨?_, ?_, ?_⟩ <;> decide

/-- C2 (corrected).  When every attempt fails, `execute_plan` returns
`success = false` with exactly `max_retries` recorded attempts (one per
attempt, on every failure path including caught exceptions; the model is a
total function, which is the no-exception-escapes guarantee), and its
error string contains the last attempt's failure text whenever that
attempt's recorded error is not "No actual changes generated" — in that
one branch the loop carries the differently worded feedback "Generated
code was identical to original" instead, which the counterexample
exhibits. -/
theorem C2_exhaustion_shape (cfg : ExecConfig) (env : Nat → AttemptEnv)
    (h : (execute_plan cfg env).1.success = false) :
    (execute_plan cfg env).1.attempts.length = cfg.max_retries ∧
    ∀ a aerr, (execute_plan cfg env).1.attempts.getLast? = some a →
      a.error = some aerr → aerr ≠ "No actual changes generated" →
      ∃ e, (execute_plan cfg env).1.error = some e ∧
        listContains e.data aerr.data = true := by
  constructor
  · have := execFrom_failure_len cfg env cfg.max_retries 1 ⟨[], 0, none⟩ h
    simpa using this
  · intro a aerr hlast haerr hne
    exact execFrom_error_contains cfg env cfg.max_retries 1 ⟨[], 0, none⟩
      (fun a ha => absurd ha (by simp)) h a aerr hlast haerr hne

def cfgC2 : ExecConfig :=
  { instruction := "i", plan := planC9, file_contents := [("a.js", "x")],
    existing_files := ["a.js"], node_modules := none,
    package_json_exists := false, max_retries := 1, run_validation := true }

def envC2 : Nat → AttemptEnv :=
  fun _ => { gen := .ok 5 [⟨"a.js", "x", "modify"⟩],
             gitApply := .exit 0 "", build := .timeout, revertOk := true }

/-- C2 counterexample: a run whose single attempt fails in the
no-actual-changes branch records the attempt error "No actual changes
generated" but returns an error string built from the differently worded
feedback, which does not contain the recorded attempt error. -/
theorem C2_exhaustion_counterexample :
    (execute_plan cfgC2 envC2).1.success = false ∧
    ((execute_plan cfgC2 envC2).1.attempts.map (fun a => a.error)) =
      [some "No actual changes generated"] ∧
    (execute_plan cfgC2 envC2).1.error =
      some "Failed after 1 attempts: Generated code was identical to original" ∧
    listContains
      ("Failed after 1 attempts: Generated code was identical to original").data
      ("No actual changes generated").data = false := by
  refine ⟨?_, ?_, ?_, ?_⟩ <;> decide

def envC2W : Nat → AttemptEnv :=
  fun _ => { gen := .raised "boom", gitApply := .exit 0 "",
             build := .timeout, revertOk := true }

/-- C2 witness: a concrete exhausted run (the single attempt raises) whose
error string contains the last attempt's recorded error. -/
theorem C2_exhaustion_shape_witness :
    (execute_plan cfgC2 envC2W).1.attempts.length = cfgC2.max_retries ∧
    (∃ e, (execute_plan cfgC2 envC2W).1.error = some e ∧
      listContains e.data ("boom").data = true) :=
  ⟨(C2_exhaustion_shape cfgC2 envC2W (by decide)).1,
   (C2_exhaustion_shape cfgC2 envC2W (by decide)).2
     ⟨1, false, [], some "boom", 0⟩ "boom" (by decide) rfl (by decide)⟩

theorem listContains_needle_first (v w : List Char) :
    listContains (v ++ w) v = true := by
  have h := listContains_of_append [] v w
  simpa using h

theorem listContains_mono_left (u rest needle : List Char)
    (h : listContains rest needle = true) :
    listContains (u ++ rest) needle = true := by
  have h2 := listContains_mono u rest [] needle h
  simpa using h2

theorem mem_eraseDups_loop {α : Type} [DecidableEq α] (a : α) :
    ∀ (as bs : List α), a ∈ List.eraseDups.loop as bs ↔ a ∈ as ∨ a ∈ bs := by
  intro as
  induction as with
  | nil =>
    intro bs
    simp [List.eraseDups.loop]
  | cons x xs ih =>
    intro bs
    rw [List.eraseDups.loop]
    cases h : List.elem x bs with
    | true =>
      simp only [h]
      have hx : x ∈ bs := List.mem_of_elem_eq_true h
      rw [ih]
      simp only [List.mem_cons]
      constructor
      · rintro (hc | hc)
        · exact Or.inl (Or.inr hc)
        · exact Or.inr hc
      · rintro ((hc | hc) | hc)
        · subst hc; exact Or.inr hx
        · exact Or.inl hc
        · exact Or.inr hc
    | false =>
      simp only [h]
      rw [ih]
      simp only [List.mem_cons]
      tauto

theorem mem_eraseDups_iff {α : Type} [DecidableEq α] (a : α) (l : List α) :
    a ∈ l.eraseDups ↔ a ∈ l := by
  rw [List.eraseDups]
  simp [mem_eraseDups_loop]

/-- C4 (corrected).  With a nonempty generated modification set missing a
required new file, the attempt fails with the "Missing required new
files" error and the attempt's only external call is the generation
request: no import, package, diff or apply step runs.  (With an empty
modification set — the case the counterexample exhibits — the attempt
still fails before apply, but with the earlier "No modifications
returned" error instead.) -/
theorem C4_missing_creates_blocks (cfg : ExecConfig) (ae : AttemptEnv) (n : Nat)
    (st : LoopState) (tokens : Nat) (modifications : List ModEntry)
    (hgen : ae.gen = .ok tokens modifications)
    (hne : modifications ≠ [])
    (habsent : ∃ f ∈ cfg.plan.files_to_create,
      f ∉ modifications.map (fun m => m.file)) :
    runAttempt cfg ae n st =
      (recordFailure { st with total_tokens := st.total_tokens + tokens } n []
        ("Missing required new files: " ++
          String.intercalate ", "
            (missing_creates cfg.plan.files_to_create modifications) ++
          ". You MUST create these files.")
        ("Missing required new files: " ++
          String.intercalate ", "
            (missing_creates cfg.plan.files_to_create modifications) ++
          ". You MUST create these files.") tokens,
       [.generate n (build_user_prompt cfg.instruction cfg.plan
          cfg.file_contents st.last_error)], none) := by
  have hmiss : missing_creates cfg.plan.files_to_create modifications ≠ [] := by
    obtain ⟨f, hf, hnf⟩ := habsent
    have hfe : f ∈ cfg.plan.files_to_create.eraseDups := by
      rw [mem_eraseDups_iff]
      exact hf
    have hmem : f ∈ missing_creates cfg.plan.files_to_create modifications := by
      unfold missing_creates
      rw [List.mem_filter]
      refine ⟨hfe, ?_⟩
      simp [hnf]
    exact List.ne_nil_of_mem hmem
  obtain ⟨gen, gitA, bld, rev⟩ := ae
  simp only at hgen
  subst hgen
  unfold runAttempt
  simp only []
  rw [if_neg hne, if_pos hmiss]

def planC4 : ExecutionPlan :=
  { steps := [], files_to_modify := [], files_to_create := ["a.js"],
    estimated_changes := 0, reasoning := "" }

def cfgC4 : ExecConfig :=
  { instruction := "i", plan := planC4, file_contents := [],
    existing_files := [], node_modules := none,
    package_json_exists := false, max_retries := 1, run_validation := true }

def st0 : LoopState := ⟨[], 0, none⟩

def aeC4 : AttemptEnv :=
  { gen := .ok 5 [], gitApply := .exit 0 "", build := .timeout, revertOk := true }

/-- C4 counterexample: with an empty generated modification set every path
of `files_to_create` is absent from it, yet the attempt fails with "No
modifications returned" rather than a "Missing required new files"
error. -/
theorem C4_missing_creates_counterexample :
    cfgC4.plan.files_to_create = ["a.js"] ∧
    ((runAttempt cfgC4 aeC4 1 st0).1.attempts.map (fun a => a.error)) =
      [some "No modifications returned"] ∧
    "No modifications returned" ≠
      "Missing required new files: a.js. You MUST create these files." := by
  refine ⟨rfl, ?_, ?_⟩ <;> decide

def aeC4W : AttemptEnv :=
  { gen := .ok 5 [⟨"b.js", "y", "create"⟩], gitApply := .exit 0 "",
    build := .timeout, revertOk := true }

/-- C4 witness: a nonempty modification set omitting the required file. -/
theorem C4_missing_creates_blocks_witness :
    runAttempt cfgC4 aeC4W 1 st0 =
      (recordFailure { st0 with total_tokens := st0.total_tokens + 5 } 1 []
        ("Missing required new files: " ++
          String.intercalate ", "
            (missing_creates cfgC4.plan.files_to_create
              [⟨"b.js", "y", "create"⟩]) ++
          ". You MUST create these files.")
        ("Missing required new files: " ++
          String.intercalate ", "
            (missing_creates cfgC4.plan.files_to_create
              [⟨"b.js", "y", "create"⟩]) ++
          ". You MUST create these files.") 5,
       [.generate 1 (build_user_prompt cfgC4.instruction cfgC4.plan
          cfgC4.file_contents st0.last_error)], none) :=
  C4_missing_creates_blocks cfgC4 aeC4W 1 st0 5 [⟨"b.js", "y", "create"⟩]
    rfl (by decide) (by decide)

theorem classify_mem_six (s : String) :
    _classify_error s ∈
      (["syntax", "type", "import", "reference", "lint", "build"] : List String) := by
  simp only [_classify_error]
  split
  · simp
  · split
    · simp
    · split
      · simp
      · split
        · simp
        · split
          · simp
          · simp

theorem classify_import_of (raw : String)
    (h1 : listContains (toLowerL raw.data) ("cannot find module".data) = true)
    (h2 : listContains (toLowerL raw.data) ("syntaxerror".data) = false)
    (h3 : listContains (toLowerL raw.data) ("unexpected token".data) = false)
    (h4 : listContains (toLowerL raw.data) ("typeerror".data) = false)
    (h5 : listContains (toLowerL raw.data) ("type error".data) = false) :
    _classify_error raw = "import" := by
  unfold _classify_error
  simp [h1, h2, h3, h4, h5]

/-- C3 (corrected).  When the combined diff applies successfully but the
build exits non-zero, the stripped build output is classified into one of
the six signature buckets, the attempt is recorded failed with the
"Build failed (<type> error):\n<output>" message, the revert call happens
within the attempt (so before any event of the next attempt), and a next
prompt built from that feedback contains the error text.  The
classification scans syntax and type signatures BEFORE the import ones,
so "Cannot find module" yields "import" only when no earlier signature
also matches — the unconditional claim is refuted by the counterexample. -/
theorem C3_build_failure_classified (cfg : ExecConfig) (ae : AttemptEnv)
    (n : Nat) (st : LoopState) (tokens : Nat) (modifications : List ModEntry)
    (rc : Nat) (so se raw : String)
    (hgen : ae.gen = .ok tokens modifications)
    (hne : modifications ≠ [])
    (hmiss : missing_creates cfg.plan.files_to_create modifications = [])
    (himp : _validate_imports modifications cfg.file_contents cfg.existing_files = none)
    (hnpm : _check_npm_imports modifications cfg.node_modules = none)
    (hdiffs : buildDiffs (_parse_executor_response modifications) cfg.file_contents ≠ [])
    (happly : (apply_with_git_core "" ae.gitApply).1.success = true)
    (hrv : cfg.run_validation = true)
    (hpj : cfg.package_json_exists = true)
    (hbuild : ae.build = .exit rc so se)
    (hrc : rc ≠ 0)
    (hraw : raw = if pyStrip se.data ≠ [] then (⟨pyStrip se.data⟩ : String)
      else (⟨pyStrip so.data⟩ : String)) :
    validate_build cfg.package_json_exists ae.build =
      { success := false, error_output := some (truncateError raw),
        error_type := some (_classify_error raw) } ∧
    _classify_error raw ∈
      (["syntax", "type", "import", "reference", "lint", "build"] : List String) ∧
    runAttempt cfg ae n st =
      (recordFailure { st with total_tokens := st.total_tokens + tokens } n
        (buildDiffs (_parse_executor_response modifications) cfg.file_contents)
        ("Build failed (" ++ _classify_error raw ++ " error):\n" ++ truncateError raw)
        ("Build failed (" ++ _classify_error raw ++ " error):\n" ++ truncateError raw)
        tokens,
       [.generate n (build_user_prompt cfg.instruction cfg.plan cfg.file_contents
          st.last_error), .applyCall n, .validateCall n, .revertCall n], none) ∧
    listContains
      (build_user_prompt cfg.instruction cfg.plan cfg.file_contents
        (some ("Build failed (" ++ _classify_error raw ++ " error):\n" ++
          truncateError raw))).data
      (truncateError raw).data = true ∧
    (listContains (toLowerL raw.data) ("cannot find module".data) = true →
      listContains (toLowerL raw.data) ("syntaxerror".data) = false →
      listContains (toLowerL raw.data) ("unexpected token".data) = false →
      listContains (toLowerL raw.data) ("typeerror".data) = false →
      listContains (toLowerL raw.data) ("type error".data) = false →
      _classify_error raw = "import") := by
  have hvb : validate_build cfg.package_json_exists ae.build =
      { success := false, error_output := some (truncateError raw),
        error_type := some (_classify_error raw) } := by
    rw [hpj, hbuild, hraw]
    simp only [validate_build]
    simp [hrc]
  refine ⟨hvb, classify_mem_six raw, ?_, ?_, ?_⟩
  · obtain ⟨gen, gitA, bld, rev⟩ := ae
    simp only at hgen hbuild happly hvb
    subst hgen
    subst hbuild
    unfold runAttempt
    simp only []
    rw [if_neg hne]
    rw [if_neg (not_not_intro hmiss)]
    rw [himp]
    simp only []
    rw [hnpm]
    simp only []
    rw [if_neg hdiffs]
    rw [if_pos happly]
    rw [if_pos hrv]
    have hnsucc : ¬((validate_build cfg.package_json_exists
        (BuildOutcome.exit rc so se)).success = true) := by
      rw [hvb]
      simp
    rw [if_neg hnsucc]
    rw [hvb]
    rfl
  · unfold build_user_prompt
    simp only [str_data_append, List.append_assoc]
    repeat'
      first
        | exact listContains_needle_first _ _
        | apply listContains_mono_left
  · intro h1 h2 h3 h4 h5
    exact classify_import_of raw h1 h2 h3 h4 h5

/-- C3 counterexample: build output "TypeError: Cannot find module x"
contains "Cannot find module" yet is classified "type", not "import",
because the type signatures are scanned first. -/
theorem C3_build_failure_counterexample :
    (validate_build true (.exit 1 "" "TypeError: Cannot find module x")).error_type =
      some "type" ∧
    listContains (toLowerL ("TypeError: Cannot find module x" : String).data)
      (("cannot find module" : String).data) = true ∧
    ("type" : String) ≠ "import" := by
  refine ⟨?_, ?_, ?_⟩ <;> decide

def planC3 : ExecutionPlan :=
  { steps := [], files_to_modify := ["a.js"], files_to_create := [],
    estimated_changes := 1, reasoning := "" }

def cfgC3 : ExecConfig :=
  { instruction := "i", plan := planC3, file_contents := [("a.js", "x")],
    existing_files := ["a.js"], node_modules := none,
    package_json_exists := true, max_retries := 1, run_validation := true }

def aeC3 : AttemptEnv :=
  { gen := .ok 7 [⟨"a.js", "y", "modify"⟩], gitApply := .exit 0 "",
    build := .exit 1 "" "Cannot find module x", revertOk := true }

def stC3 : LoopState := ⟨[], 0, none⟩

/-- C3 witness: apply succeeds, the build exits 1 with stderr
"Cannot find module x" (and no earlier signature), so the attempt is
classified "import", recorded failed, and revert is called. -/
theorem C3_build_failure_classified_witness :
    _classify_error "Cannot find module x" = "import" ∧
    (runAttempt cfgC3 aeC3 1 stC3).2.1 =
      [.generate 1 (build_user_prompt cfgC3.instruction cfgC3.plan
        cfgC3.file_contents stC3.last_error), .applyCall 1, .validateCall 1,
       .revertCall 1] := by
  have h := C3_build_failure_classified cfgC3 aeC3 1 stC3 7
    [⟨"a.js", "y", "modify"⟩] 1 "" "Cannot find module x" "Cannot find module x"
    rfl (by decide) (by decide) (by decide) (by decide) (by decide) (by decide)
    rfl rfl rfl (by decide) (by decide)
  refine ⟨?_, ?_⟩
  · exact h.2.2.2.2 (by decide) (by decide) (by decide) (by decide) (by decide)
  · rw [h.2.2.1]

theorem validate_build_timeout (pj : Bool) :
    validate_build pj .timeout = { success := true } := by
  cases pj <;> rfl

/-- C7 (confirmed).  A build-validation timeout is a pass: `validate_build`
returns success and — in a run that reaches validation — the attempt
succeeds.  A timed-out `git apply`, by contrast, surfaces as a failed
apply ("git apply timed out") and the attempt is recorded failed. -/
theorem C7_timeout_asymmetry :
    (∀ pj : Bool, validate_build pj .timeout = { success := true }) ∧
    (∀ backup_dir : String,
      (apply_with_git_core backup_dir .timeout).1 =
        { success := false, message := "git apply timed out" }) ∧
    (∀ (cfg : ExecConfig) (ae : AttemptEnv) (n : Nat) (st : LoopState)
        (tokens : Nat) (modifications : List ModEntry),
      ae.gen = .ok tokens modifications →
      modifications ≠ [] →
      missing_creates cfg.plan.files_to_create modifications = [] →
      _validate_imports modifications cfg.file_contents cfg.existing_files = none →
      _check_npm_imports modifications cfg.node_modules = none →
      buildDiffs (_parse_executor_response modifications) cfg.file_contents ≠ [] →
      ae.gitApply = .timeout →
      runAttempt cfg ae n st =
        (recordFailure { st with total_tokens := st.total_tokens + tokens } n
          (buildDiffs (_parse_executor_response modifications) cfg.file_contents)
          "git apply timed out" "git apply timed out" tokens,
         [.generate n (build_user_prompt cfg.instruction cfg.plan
            cfg.file_contents st.last_error), .applyCall n], none)) ∧
    (∀ (cfg : ExecConfig) (ae : AttemptEnv) (n : Nat) (st : LoopState)
        (tokens : Nat) (modifications : List ModEntry),
      ae.gen = .ok tokens modifications →
      modifications ≠ [] →
      missing_creates cfg.plan.files_to_create modifications = [] →
      _validate_imports modifications cfg.file_contents cfg.existing_files = none →
      _check_npm_imports modifications cfg.node_modules = none →
      buildDiffs (_parse_executor_response modifications) cfg.file_contents ≠ [] →
      (apply_with_git_core "" ae.gitApply).1.success = true →
      cfg.run_validation = true →
      ae.build = .timeout →
      ∃ res, (runAttempt cfg ae n st).2.2 = some res ∧ res.success = true) := by
  refine ⟨validate_build_timeout, fun _ => rfl, ?_, ?_⟩
  · intro cfg ae n st tokens modifications hgen hne hmiss himp hnpm hdiffs hgit
    obtain ⟨gen, gitA, bld, rev⟩ := ae
    simp only at hgen hgit
    subst hgen
    subst hgit
    unfold runAttempt
    simp only []
    rw [if_neg hne]
    rw [if_neg (not_not_intro hmiss)]
    rw [himp]
    simp only []
    rw [hnpm]
    simp only []
    rw [if_neg hdiffs]
    have hns : ¬((apply_with_git_core "" GitApplyOutcome.timeout).1.success = true) := by
      decide
    rw [if_neg hns]
    rfl
  · intro cfg ae n st tokens modifications hgen hne hmiss himp hnpm hdiffs
      happly hrv hbuild
    obtain ⟨gen, gitA, bld, rev⟩ := ae
    simp only at hgen happly hbuild
    subst hgen
    subst hbuild
    refine ⟨(recordSuccess { st with total_tokens := st.total_tokens + tokens } n
      (buildDiffs (_parse_executor_response modifications) cfg.file_contents)
      tokens).2, ?_, rfl⟩
    unfold runAttempt
    simp only []
    rw [if_neg hne]
    rw [if_neg (not_not_intro hmiss)]
    rw [himp]
    simp only []
    rw [hnpm]
    simp only []
    rw [if_neg hdiffs]
    rw [if_pos happly]
    rw [if_pos hrv]
    have hvs : (validate_build cfg.package_json_exists BuildOutcome.timeout).success =
        true := by
      rw [validate_build_timeout]
    rw [if_pos hvs]

def planC7 : ExecutionPlan :=
  { steps := [], files_to_modify := ["a.js"], files_to_create := [],
    estimated_changes := 1, reasoning := "" }

def cfgC7 : ExecConfig :=
  { instruction := "i", plan := planC7, file_contents := [("a.js", "x")],
    existing_files := ["a.js"], node_modules := none,
    package_json_exists := true, max_retries := 1, run_validation := true }

def aeC7apply : AttemptEnv :=
  { gen := .ok 7 [⟨"a.js", "y", "modify"⟩], gitApply := .timeout,
    build := .exit 0 "" "", revertOk := true }

def aeC7build : AttemptEnv :=
  { gen := .ok 7 [⟨"a.js", "y", "modify"⟩], gitApply := .exit 0 "",
    build := .timeout, revertOk := true }

def stC7 : LoopState := ⟨[], 0, none⟩

/-- C7 witness: a timed-out build validation passes the attempt while a
timed-out git apply fails it, at concrete runs. -/
theorem C7_timeout_asymmetry_witness :
    validate_build true .timeout = { success := true } ∧
    (apply_with_git_core "b" .timeout).1 =
      { success := false, message := "git apply timed out" } ∧
    runAttempt cfgC7 aeC7apply 1 stC7 =
      (recordFailure { stC7 with total_tokens := stC7.total_tokens + 7 } 1
        (buildDiffs (_parse_executor_response [⟨"a.js", "y", "modify"⟩])
          cfgC7.file_contents)
        "git apply timed out" "git apply timed out" 7,
       [.generate 1 (build_user_prompt cfgC7.instruction cfgC7.plan
          cfgC7.file_contents stC7.last_error), .applyCall 1], none) ∧
    (∃ res, (runAttempt cfgC7 aeC7build 1 stC7).2.2 = some res ∧
      res.success = true) := by
  refine ⟨C7_timeout_asymmetry.1 true, C7_timeout_asymmetry.2.1 "b", ?_, ?_⟩
  · exact C7_timeout_asymmetry.2.2.1 cfgC7 aeC7apply 1 stC7 7
      [⟨"a.js", "y", "modify"⟩] rfl (by decide) (by decide) (by decide)
      (by decide) (by decide) rfl
  · exact C7_timeout_asymmetry.2.2.2 cfgC7 aeC7build 1 stC7 7
      [⟨"a.js", "y", "modify"⟩] rfl (by decide) (by decide) (by decide)
      (by decide) (by decide) rfl rfl rfl
